import Mathlib

/-!
Verification of the layout-and-rendering core of the `mcp-draw-arch` repository.

The development shallowly embeds `lib/core/schema.js` (first variant: node and
connection style tables), `lib/core/layout.js` (class `LayoutEngine`) and
`lib/core/renderer.js` (first variant of class `ExcalidrawRenderer`), together
with the orchestration in `lib/semantic/generator.js`.

Conventions of the embedding:
* JavaScript numbers are modelled as rationals (`ℚ`); all arithmetic performed
  by the embedded code (addition, subtraction, multiplication, halving,
  `Math.min`/`Math.max`/`Math.abs`) is exact on rationals.  `Math.ceil(Math.sqrt n)`
  on a list length is modelled as the exact ceiling of the square root.
* JavaScript objects used as string-keyed maps are modelled as association
  lists; assignment `m[k] = v` is last-write-wins, so lookups are modelled by a
  left fold that keeps the last matching entry.
* A property access on a possibly-`undefined` value (which would throw a
  `TypeError` at run time) is modelled by `Option`: functions that contain such
  an unguarded access return an `Option` result, `none` standing for the throw.
* `console.warn` messages are collected in a diagnostics list that is returned
  alongside the result.
* The renderer's `Date.now()` is passed in as an explicit `now` parameter and
  its `this.idCounter` is threaded explicitly.  The purely cosmetic random
  jitter fields (`seed`, `versionNonce`), the timestamps (`updated`,
  `createdAt`, `updatedAt`) and the constant format attributes (`fillStyle`,
  `strokeWidth`, `roughness`, `angle`, `groupIds`, `strokeSharpness`,
  `fontSize`, `fontFamily`, `textAlign`, `verticalAlign`, `autoResize`,
  `link`, `locked`, `isDeleted`) are omitted from the element record: no
  specified property depends on them.  The trigonometric offset used only for
  placing a connection label (`Math.atan2`/`sin`/`cos`) is abstracted as an
  explicit function parameter `off`.
-/

set_option linter.unusedVariables false

namespace DrawArch

/-- A node of the architecture DSL (`NodeSchema` in `lib/core/schema.js`).
The optional `description`/`metadata` attribute bags are opaque passthrough
data never inspected by layout or rendering and are omitted. -/
structure ArchNode where
  id : String
  type : String
  label : String
deriving DecidableEq, Repr

/-- A connection of the architecture DSL (`ConnectionSchema`). -/
structure ArchConnection where
  id : Option String
  «from» : String
  «to» : String
  type : String
  label : Option String
  bidirectional : Bool
deriving DecidableEq, Repr

/-- A group of the architecture DSL (`GroupSchema`): member node ids in
`contains`. -/
structure ArchGroup where
  id : String
  label : String
  contains : List String
  type : String
deriving DecidableEq, Repr

/-- The `spacing` part of the layout configuration (zod defaults `node := 80`,
`rank := 100` are applied by the schema when the object is present). -/
structure LayoutSpacing where
  node : ℚ
  rank : ℚ
deriving DecidableEq, Repr

/-- The `layout` part of an architecture document. -/
structure LayoutConfig where
  type : Option String
  direction : Option String
  spacing : Option LayoutSpacing
deriving DecidableEq, Repr

/-- A schema-validated architecture document (`ArchitectureSchema`). -/
structure Architecture where
  nodes : List ArchNode
  connections : List ArchConnection
  groups : List ArchGroup
  layout : Option LayoutConfig
deriving DecidableEq, Repr

/-- Visual style of a node type (one row of the `NODE_STYLES` table). -/
structure NodeStyle where
  shape : String
  fillColor : String
  strokeColor : String
  width : ℚ
  height : ℚ
deriving DecidableEq, Repr

/-- The `NODE_STYLES` table of `lib/core/schema.js`. -/
def NODE_STYLES (t : String) : Option NodeStyle :=
  if t = "actor" then some { shape := "ellipse", fillColor := "#e1f5fe", strokeColor := "#0277bd", width := 120, height := 80 }
  else if t = "service" then some { shape := "rectangle", fillColor := "#f3e5f5", strokeColor := "#7b1fa2", width := 140, height := 80 }
  else if t = "database" then some { shape := "rectangle", fillColor := "#e8f5e8", strokeColor := "#388e3c", width := 120, height := 80 }
  else if t = "queue" then some { shape := "rectangle", fillColor := "#fff3e0", strokeColor := "#f57c00", width := 130, height := 70 }
  else if t = "cache" then some { shape := "rectangle", fillColor := "#fce4ec", strokeColor := "#c2185b", width := 110, height := 70 }
  else if t = "gateway" then some { shape := "diamond", fillColor := "#f1f8e9", strokeColor := "#689f38", width := 100, height := 100 }
  else if t = "ui" then some { shape := "rectangle", fillColor := "#e3f2fd", strokeColor := "#1976d2", width := 130, height := 80 }
  else if t = "external" then some { shape := "rectangle", fillColor := "#fafafa", strokeColor := "#616161", width := 120, height := 80 }
  else none

/-- The lookup `NODE_STYLES[node.type] || NODE_STYLES.service` used throughout
`lib/core/layout.js`. -/
def nodeStyleOf (t : String) : NodeStyle :=
  (NODE_STYLES t).getD { shape := "rectangle", fillColor := "#f3e5f5", strokeColor := "#7b1fa2", width := 140, height := 80 }

/-- Visual style of a connection type (one row of `CONNECTION_STYLES`). -/
structure ConnectionStyle where
  strokeColor : String
  strokeStyle : String
  arrowType : String
deriving DecidableEq, Repr

/-- The `CONNECTION_STYLES` table of `lib/core/schema.js`. -/
def CONNECTION_STYLES (t : String) : Option ConnectionStyle :=
  if t = "http" then some { strokeColor := "#1976d2", strokeStyle := "solid", arrowType := "arrow" }
  else if t = "async" then some { strokeColor := "#f57c00", strokeStyle := "dashed", arrowType := "arrow" }
  else if t = "query" then some { strokeColor := "#388e3c", strokeStyle := "solid", arrowType := "arrow" }
  else if t = "sync" then some { strokeColor := "#7b1fa2", strokeStyle := "solid", arrowType := "arrow" }
  else if t = "data_flow" then some { strokeColor := "#616161", strokeStyle := "dotted", arrowType := "arrow" }
  else none

/-- The `this.canvas` constants of class `LayoutEngine`. -/
def canvasWidth : ℚ := 1200

/-- Canvas height constant of `LayoutEngine`. -/
def canvasHeight : ℚ := 800

/-- Canvas padding constant of `LayoutEngine`. -/
def canvasPadding : ℚ := 50

/-- JavaScript `s || d` on an optional string: `undefined` and the empty
string (both falsy) select the default. -/
def jsStringOr (o : Option String) (d : String) : String :=
  match o with
  | some s => if s = "" then d else s
  | none => d

/-- A positioned node, as produced by the layout engine (`{...node, x, y,
width, height, style}`). -/
structure PositionedNode where
  id : String
  type : String
  label : String
  x : ℚ
  y : ℚ
  width : ℚ
  height : ℚ
  style : NodeStyle
deriving DecidableEq, Repr

/-- A positioned connection as produced by `calculateConnectionPaths`. -/
structure PositionedConnection where
  id : String
  «from» : String
  «to» : String
  type : String
  label : Option String
  bidirectional : Bool
  fromPoint : ℚ × ℚ
  toPoint : ℚ × ℚ
  path : List (ℚ × ℚ)
deriving DecidableEq, Repr

/-- A positioned group as produced by `positionGroups`. -/
structure PositionedGroup where
  id : String
  label : String
  contains : List String
  type : String
  x : ℚ
  y : ℚ
  width : ℚ
  height : ℚ
deriving DecidableEq, Repr

/-- Bounding box record returned by `calculateBounds`. -/
structure Bounds where
  minX : ℚ
  minY : ℚ
  maxX : ℚ
  maxY : ℚ
  width : ℚ
  height : ℚ
deriving DecidableEq, Repr

/-- A complete positioned layout (the return value of the layout
strategies). -/
structure Layout where
  nodes : List PositionedNode
  connections : List PositionedConnection
  groups : List PositionedGroup
  bounds : Bounds
deriving DecidableEq, Repr

/-- The object-as-map lookup used by `calculateConnectionPaths` and
`positionGroups`: the map is built by `positionedNodes.forEach(node =>
nodeMap[node.id] = node)`, so a later entry with the same id overwrites an
earlier one.  The left fold keeps the last matching node, mirroring
last-write-wins object assignment. -/
def nodeMapFind (positionedNodes : List PositionedNode) (key : String) : Option PositionedNode :=
  positionedNodes.foldl (fun acc n => if n.id = key then some n else acc) none

/-- `calculateBounds` of `LayoutEngine`: the fold with `min`/`max` models
`Math.min(...)`/`Math.max(...)` over the mapped coordinate lists; the empty
list yields the all-zero record. -/
def calculateBounds (nodes : List PositionedNode) : Bounds :=
  match nodes with
  | [] => { minX := 0, minY := 0, maxX := 0, maxY := 0, width := 0, height := 0 }
  | n :: rest =>
    let minX := rest.foldl (fun m x => min m x.x) n.x
    let minY := rest.foldl (fun m x => min m x.y) n.y
    let maxX := rest.foldl (fun m x => max m (x.x + x.width)) (n.x + n.width)
    let maxY := rest.foldl (fun m x => max m (x.y + x.height)) (n.y + n.height)
    { minX := minX, minY := minY, maxX := maxX, maxY := maxY,
      width := maxX - minX, height := maxY - minY }

/-- `positionGroups`' body for a single group: resolve member ids, drop the
group if nothing resolves (`if (containedNodes.length === 0) return null`),
otherwise expand the members' bounding box by the fixed padding 20. -/
def positionGroup (positionedNodes : List PositionedNode) (group : ArchGroup) : Option PositionedGroup :=
  let containedNodes := group.contains.filterMap (nodeMapFind positionedNodes)
  if containedNodes.isEmpty then none
  else
    let bounds := calculateBounds containedNodes
    let padding : ℚ := 20
    some { id := group.id, label := group.label, contains := group.contains, type := group.type,
           x := bounds.minX - padding, y := bounds.minY - padding,
           width := bounds.width + 2 * padding, height := bounds.height + 2 * padding }

/-- `positionGroups` of `LayoutEngine` (`map` to a value or `null` followed by
`filter(Boolean)` is a `filterMap`). -/
def positionGroups (groups : List ArchGroup) (positionedNodes : List PositionedNode) : List PositionedGroup :=
  groups.filterMap (positionGroup positionedNodes)

/-- Result record of `calculateOptimalConnectionPoints`. -/
structure ConnPoints where
  fromPoint : ℚ × ℚ
  toPoint : ℚ × ℚ
  path : List (ℚ × ℚ)
deriving DecidableEq, Repr

/-- `calculateOptimalConnectionPoints` of `LayoutEngine`. -/
def calculateOptimalConnectionPoints (fromNode toNode : PositionedNode) : ConnPoints :=
  let fromCenterX := fromNode.x + fromNode.width / 2
  let fromCenterY := fromNode.y + fromNode.height / 2
  let toCenterX := toNode.x + toNode.width / 2
  let toCenterY := toNode.y + toNode.height / 2
  let dx := toCenterX - fromCenterX
  let dy := toCenterY - fromCenterY
  let pts : (ℚ × ℚ) × (ℚ × ℚ) :=
    if |dx| > |dy| then
      if dx > 0 then
        ((fromNode.x + fromNode.width, fromCenterY), (toNode.x, toCenterY))
      else
        ((fromNode.x, fromCenterY), (toNode.x + toNode.width, toCenterY))
    else
      if dy > 0 then
        ((fromCenterX, fromNode.y + fromNode.height), (toCenterX, toNode.y))
      else
        ((fromCenterX, fromNode.y), (toCenterX, toNode.y + toNode.height))
  { fromPoint := pts.1, toPoint := pts.2, path := [pts.1, pts.2] }

/-- The `console.warn` message emitted by `calculateConnectionPaths` for a
connection whose endpoint does not resolve. -/
def missingNodeWarning (c : ArchConnection) : String :=
  "Connection references missing node: " ++ c.«from» ++ " -> " ++ c.«to»

/-- Building the positioned connection `{...conn, ...connectionPoints, id:
conn.id || default}` (JavaScript `||`: a missing or empty id selects the
generated one). -/
def positionedConnOf (c : ArchConnection) (fromNode toNode : PositionedNode) : PositionedConnection :=
  let cp := calculateOptimalConnectionPoints fromNode toNode
  { id := jsStringOr c.id ("conn_" ++ c.«from» ++ "_" ++ c.«to»),
    «from» := c.«from», «to» := c.«to», type := c.type, label := c.label,
    bidirectional := c.bidirectional,
    fromPoint := cp.fromPoint, toPoint := cp.toPoint, path := cp.path }

/-- `calculateConnectionPaths` of `LayoutEngine`: connections with an
unresolvable endpoint are mapped to `null` with a `console.warn` and removed by
`filter(Boolean)`; the second component collects the warnings in order. -/
def calculateConnectionPaths (connections : List ArchConnection)
    (positionedNodes : List PositionedNode) : List PositionedConnection × List String :=
  match connections with
  | [] => ([], [])
  | c :: rest =>
    let tail := calculateConnectionPaths rest positionedNodes
    match nodeMapFind positionedNodes c.«from», nodeMapFind positionedNodes c.«to» with
    | some fromNode, some toNode => (positionedConnOf c fromNode toNode :: tail.1, tail.2)
    | some _, none => (tail.1, missingNodeWarning c :: tail.2)
    | none, some _ => (tail.1, missingNodeWarning c :: tail.2)
    | none, none => (tail.1, missingNodeWarning c :: tail.2)

/-- `const isVertical = direction === 'TB' || direction === 'BT'`. -/
def isVerticalDir (direction : String) : Bool :=
  direction = "TB" || direction = "BT"

/-- The body of the inner `layer.map` of `positionNodesInLayers`, for the node
at `nodeIndex` of the layer at `layerIndex` whose length is `layerLen`.  Note
that the code computes `totalWidth`/`totalHeight` from the *current* node's own
style inside the map. -/
def placeLayerNode (direction : String) (sp : LayoutSpacing) (layerLen layerIndex nodeIndex : Nat)
    (node : ArchNode) : PositionedNode :=
  let style := nodeStyleOf node.type
  if isVerticalDir direction then
    let totalWidth := (layerLen : ℚ) * style.width + ((layerLen : ℚ) - 1) * sp.node
    let startX := (canvasWidth - totalWidth) / 2
    let x := startX + (nodeIndex : ℚ) * (style.width + sp.node)
    let y := if direction = "TB" then
        canvasPadding + (layerIndex : ℚ) * (style.height + sp.rank)
      else
        canvasHeight - canvasPadding - ((layerIndex : ℚ) + 1) * (style.height + sp.rank)
    { id := node.id, type := node.type, label := node.label,
      x := x, y := y, width := style.width, height := style.height, style := style }
  else
    let totalHeight := (layerLen : ℚ) * style.height + ((layerLen : ℚ) - 1) * sp.node
    let startY := (canvasHeight - totalHeight) / 2
    let y := startY + (nodeIndex : ℚ) * (style.height + sp.node)
    let x := if direction = "LR" then
        canvasPadding + (layerIndex : ℚ) * (style.width + sp.rank)
      else
        canvasWidth - canvasPadding - ((layerIndex : ℚ) + 1) * (style.width + sp.rank)
    { id := node.id, type := node.type, label := node.label,
      x := x, y := y, width := style.width, height := style.height, style := style }

/-- The inner `layer.map((node, nodeIndex) => ...)` with a running node
index. -/
def placeLayerAux (direction : String) (sp : LayoutSpacing) (layerLen layerIndex : Nat) :
    Nat → List ArchNode → List PositionedNode
  | _, [] => []
  | ni, n :: rest =>
    placeLayerNode direction sp layerLen layerIndex ni n ::
      placeLayerAux direction sp layerLen layerIndex (ni + 1) rest

/-- Positioning of one layer. -/
def positionLayer (direction : String) (sp : LayoutSpacing) (layerIndex : Nat)
    (layer : List ArchNode) : List PositionedNode :=
  placeLayerAux direction sp layer.length layerIndex 0 layer

/-- The outer `layers.forEach((layer, layerIndex) => ...)` with a running layer
index, concatenating the per-layer results. -/
def positionLayersAux (direction : String) (sp : LayoutSpacing) :
    Nat → List (List ArchNode) → List PositionedNode
  | _, [] => []
  | li, layer :: rest =>
    positionLayer direction sp li layer ++ positionLayersAux direction sp (li + 1) rest

/-- `positionNodesInLayers` of `LayoutEngine`. -/
def positionNodesInLayers (layers : List (List ArchNode)) (direction : String)
    (sp : LayoutSpacing) : List PositionedNode :=
  positionLayersAux direction sp 0 layers

/-- Adjacency record of the dependency graph (`{incoming: [], outgoing: []}`). -/
structure NodeAdj where
  incoming : List String
  outgoing : List String
deriving DecidableEq, Repr

/-- The dependency graph: a string-keyed object modelled as an association
list with unique keys. -/
abbrev DepGraph : Type := List (String × NodeAdj)

/-- Object lookup `graph[k]`. -/
def lookupAdj (g : DepGraph) (k : String) : Option NodeAdj :=
  ((g : List (String × NodeAdj)).find? (fun e => e.1 = k)).map (fun e => e.2)

/-- Object assignment `graph[k] = v`: overwrite an existing entry or create a
new one. -/
def setAdj (g : DepGraph) (k : String) (v : NodeAdj) : DepGraph :=
  if (lookupAdj g k).isSome then
    (g : List (String × NodeAdj)).map (fun e => if e.1 = k then (e.1, v) else e)
  else
    (g : List (String × NodeAdj)) ++ [(k, v)]

/-- In-place mutation of the entry at key `k` (used for the `push` calls). -/
def updateAdj (g : DepGraph) (k : String) (f : NodeAdj → NodeAdj) : DepGraph :=
  (g : List (String × NodeAdj)).map (fun e => if e.1 = k then (e.1, f e.2) else e)

/-- One step of the `connections.forEach` in `buildDependencyGraph`: guarded by
`if (graph[conn.from] && graph[conn.to])`, push `conn.to` onto the outgoing
list of `conn.from` and then `conn.from` onto the incoming list of `conn.to`
(sequentially, so a self-loop sees the first push). -/
def addConnEdge (g : DepGraph) (c : ArchConnection) : DepGraph :=
  if (lookupAdj g c.«from»).isSome && (lookupAdj g c.«to»).isSome then
    let g1 := updateAdj g c.«from» (fun a => { a with outgoing := a.outgoing ++ [c.«to»] })
    updateAdj g1 c.«to» (fun a => { a with incoming := a.incoming ++ [c.«from»] })
  else g

/-- `buildDependencyGraph` of `LayoutEngine`. -/
def buildDependencyGraph (nodes : List ArchNode) (connections : List ArchConnection) : DepGraph :=
  connections.foldl addConnEdge
    (nodes.foldl (fun g n => setAdj g n.id { incoming := [], outgoing := [] }) ([] : DepGraph))

/-- The fixed canonical type order of `groupNodesByType`. -/
def typeOrder : List String :=
  ["actor", "ui", "gateway", "service", "queue", "cache", "database", "external"]

/-- The `typeOrder.forEach` of `groupNodesByType`: collect, in order, the
nonempty per-type filters. -/
def typeLayersAux (nodes : List ArchNode) : List String → List (List ArchNode)
  | [] => []
  | t :: ts =>
    let nodesOfType := nodes.filter (fun n => n.type = t)
    if nodesOfType.isEmpty then typeLayersAux nodes ts
    else nodesOfType :: typeLayersAux nodes ts

/-- `groupNodesByType` of `LayoutEngine`: canonical-type-order layers followed
by a layer of the remaining nodes whose type is outside `typeOrder`, if any. -/
def groupNodesByType (nodes : List ArchNode) : List (List ArchNode) :=
  let layers := typeLayersAux nodes typeOrder
  let remainingNodes := nodes.filter (fun n => !(typeOrder.contains n.type))
  if remainingNodes.isEmpty then layers else layers ++ [remainingNodes]

/-- The filter computing `rootNodes`: `dependencyGraph[node.id].incoming` is an
unguarded lookup, so a missing key is a throw (`none`). -/
def rootFilter (g : DepGraph) : List ArchNode → Option (List ArchNode)
  | [] => some []
  | n :: ns =>
    match lookupAdj g n.id with
    | none => none
    | some adj =>
      match rootFilter g ns with
      | none => none
      | some rest => some (if adj.incoming.isEmpty then n :: rest else rest)

/-- The per-iteration state of the breadth-first loop of `assignLayers`:
the visited set (insertion order kept), the layer being filled, and the queue
being collected for the next rank. -/
structure BfsState where
  visited : List String
  layer : List ArchNode
  nextQueue : List ArchNode
deriving DecidableEq, Repr

/-- The body of `queue.forEach(node => ...)` in `assignLayers` for one node:
skip a visited node; otherwise mark it visited, append it to the current
layer, and push each unvisited resolvable outgoing neighbour onto the next
queue.  `dependencyGraph[node.id].outgoing` is unguarded, hence `Option`;
the neighbour lookup `nodes.find(...)` is guarded by `if (depNode && ...)`. -/
def processNode (nodes : List ArchNode) (g : DepGraph) (st : BfsState) (node : ArchNode) :
    Option BfsState :=
  if st.visited.contains node.id then some st
  else
    match lookupAdj g node.id with
    | none => none
    | some adj =>
      let visited1 := st.visited ++ [node.id]
      some { visited := visited1,
             layer := st.layer ++ [node],
             nextQueue := adj.outgoing.foldl (fun acc depId =>
               match nodes.find? (fun n => n.id = depId) with
               | some depNode => if visited1.contains depId then acc else acc ++ [depNode]
               | none => acc) st.nextQueue }

/-- Folding `processNode` over the frontier queue. -/
def bfsFold (nodes : List ArchNode) (g : DepGraph) : List ArchNode → BfsState → Option BfsState
  | [], st => some st
  | n :: q, st =>
    match processNode nodes g st n with
    | some st1 => bfsFold nodes g q st1
    | none => none

/-- The `while (queue.length > 0)` loop of `assignLayers`.  The loop always
terminates (each nonempty iteration either visits a new node or empties the
queue), which the fuel argument makes structural; fuel exhaustion yields
`none` and is proved unreachable for the fuel chosen in `assignLayers`. -/
def bfsLoop (nodes : List ArchNode) (g : DepGraph) :
    Nat → List ArchNode → List String → List (List ArchNode) →
    Option (List (List ArchNode) × List String)
  | fuel, queue, visited, layers =>
    match queue with
    | [] => some (layers, visited)
    | _ :: _ =>
      match fuel with
      | 0 => none
      | fuel' + 1 =>
        match bfsFold nodes g queue { visited := visited, layer := [], nextQueue := [] } with
        | some st => bfsLoop nodes g fuel' st.nextQueue st.visited (layers ++ [st.layer])
        | none => none

/-- `assignLayers` of `LayoutEngine`: zero roots fall back to
`groupNodesByType`; otherwise breadth-first layering followed by an overflow
layer of the never-visited nodes. -/
def assignLayers (nodes : List ArchNode) (g : DepGraph) : Option (List (List ArchNode)) :=
  match rootFilter g nodes with
  | none => none
  | some rootNodes =>
    if rootNodes.isEmpty then some (groupNodesByType nodes)
    else
      match bfsLoop nodes g (nodes.length + 2) rootNodes [] [] with
      | none => none
      | some (layers, visited) =>
        let remaining := nodes.filter (fun n => !(visited.contains n.id))
        some (if remaining.isEmpty then layers else layers ++ [remaining])

/-- `generateHierarchicalLayout` of `LayoutEngine` (diagnostics of
`calculateConnectionPaths` returned alongside). -/
def generateHierarchicalLayout (nodes : List ArchNode) (connections : List ArchConnection)
    (groups : List ArchGroup) (layoutConfig : LayoutConfig) : Option (Layout × List String) :=
  let direction := jsStringOr layoutConfig.direction "TB"
  let sp := layoutConfig.spacing.getD { node := 80, rank := 100 }
  let dependencyGraph := buildDependencyGraph nodes connections
  (assignLayers nodes dependencyGraph).map (fun layers =>
    let positionedNodes := positionNodesInLayers layers direction sp
    let pc := calculateConnectionPaths connections positionedNodes
    ({ nodes := positionedNodes, connections := pc.1,
       groups := positionGroups groups positionedNodes,
       bounds := calculateBounds positionedNodes }, pc.2))

/-- Upward search for the least `c ≥ start` with `n ≤ c * c`. -/
def sqrtSearch (n : Nat) : Nat → Nat → Nat
  | 0, c => c
  | fuel + 1, c => if n ≤ c * c then c else sqrtSearch n fuel (c + 1)

/-- Exact ceiling square root (the least `c` with `n ≤ c * c`), modelling
`Math.ceil(Math.sqrt(n))` on a list length. -/
def jsCeilSqrt (n : Nat) : Nat :=
  sqrtSearch n (n + 1) 0

/-- Exact ceiling division, modelling `Math.ceil(a / b)` on natural counts. -/
def jsCeilDiv (a b : Nat) : Nat :=
  (a + b - 1) / b

/-- The body of the `nodes.map((node, index) => ...)` of `generateGridLayout`
for the node at input index `i`: row-major placement at row `i / cols`,
column `i % cols`. -/
def gridCell (sp : LayoutSpacing) (cols i : Nat) (n : ArchNode) : PositionedNode :=
  let row := i / cols
  let col := i % cols
  let style := nodeStyleOf n.type
  { id := n.id, type := n.type, label := n.label,
    x := canvasPadding + (col : ℚ) * (style.width + sp.node),
    y := canvasPadding + (row : ℚ) * (style.height + sp.rank),
    width := style.width, height := style.height, style := style }

/-- The `nodes.map((node, index) => ...)` of `generateGridLayout` with a
running index. -/
def gridPlaceAux (sp : LayoutSpacing) (cols : Nat) : Nat → List ArchNode → List PositionedNode
  | _, [] => []
  | i, n :: rest => gridCell sp cols i n :: gridPlaceAux sp cols (i + 1) rest

/-- `generateGridLayout` of `LayoutEngine`. -/
def generateGridLayout (nodes : List ArchNode) (connections : List ArchConnection)
    (groups : List ArchGroup) (layoutConfig : LayoutConfig) : Layout × List String :=
  let sp := layoutConfig.spacing.getD { node := 80, rank := 100 }
  let cols := jsCeilSqrt nodes.length
  let rows := jsCeilDiv nodes.length cols
  let positionedNodes := gridPlaceAux sp cols 0 nodes
  let pc := calculateConnectionPaths connections positionedNodes
  ({ nodes := positionedNodes, connections := pc.1,
     groups := positionGroups groups positionedNodes,
     bounds := calculateBounds positionedNodes }, pc.2)

/-- `generateLayeredLayout` of `LayoutEngine` (`positionLayeredNodes` simply
delegates to `positionNodesInLayers`). -/
def generateLayeredLayout (nodes : List ArchNode) (connections : List ArchConnection)
    (groups : List ArchGroup) (layoutConfig : LayoutConfig) : Layout × List String :=
  let direction := jsStringOr layoutConfig.direction "TB"
  let sp := layoutConfig.spacing.getD { node := 80, rank := 120 }
  let layers := groupNodesByType nodes
  let positionedNodes := positionNodesInLayers layers direction sp
  let pc := calculateConnectionPaths connections positionedNodes
  ({ nodes := positionedNodes, connections := pc.1,
     groups := positionGroups groups positionedNodes,
     bounds := calculateBounds positionedNodes }, pc.2)

/-- The empty object supplied by the destructuring default `layout = {}` in
`generateLayout`. -/
def emptyLayoutConfig : LayoutConfig :=
  { type := none, direction := none, spacing := none }

/-- `generateLayout` of `LayoutEngine`: dispatch on `layout.type ||
'hierarchical'`, unknown strategies taking the `default:` branch. -/
def generateLayout (architecture : Architecture) : Option (Layout × List String) :=
  let layoutConfig := architecture.layout.getD emptyLayoutConfig
  let layoutType := jsStringOr layoutConfig.type "hierarchical"
  if layoutType = "hierarchical" then
    generateHierarchicalLayout architecture.nodes architecture.connections architecture.groups layoutConfig
  else if layoutType = "grid" then
    some (generateGridLayout architecture.nodes architecture.connections architecture.groups layoutConfig)
  else if layoutType = "layered" then
    some (generateLayeredLayout architecture.nodes architecture.connections architecture.groups layoutConfig)
  else
    generateHierarchicalLayout architecture.nodes architecture.connections architecture.groups layoutConfig

/-- An entry of a shape's `boundElements` list (`{type: 'text', id: textId}`). -/
structure BoundElementRef where
  type : String
  id : String
deriving DecidableEq, Repr

/-- An arrow's `startBinding`/`endBinding` record. -/
structure PointBinding where
  elementId : String
  focus : ℚ
  gap : ℚ
deriving DecidableEq, Repr

/-- An Excalidraw element as synthesized by the renderer.  Cosmetic constant,
random-jitter and timestamp attributes are omitted (see the file header). -/
structure Element where
  id : String
  type : String
  x : ℚ
  y : ℚ
  width : ℚ
  height : ℚ
  backgroundColor : String
  strokeColor : String
  strokeStyle : String
  opacity : ℚ
  text : Option String := none
  containerId : Option String := none
  boundElements : Option (List BoundElementRef) := none
  points : Option (List (ℚ × ℚ)) := none
  startBinding : Option PointBinding := none
  endBinding : Option PointBinding := none
  startArrowhead : Option String := none
  endArrowhead : Option String := none
deriving DecidableEq, Repr

/-- The document envelope returned by `render` (the constant `appState` record
is omitted). -/
structure Document where
  type : String
  version : Nat
  source : String
  elements : List Element
deriving DecidableEq, Repr

/-- `generateId` of `ExcalidrawRenderer`: pre-increment the counter and
produce `Date.now() + "_" + counter`; returns the id body and the new
counter. -/
def generateId (now ctr : Nat) : String × Nat :=
  let c := ctr + 1
  (toString now ++ "_" ++ toString c, c)

/-- `renderNode` of `ExcalidrawRenderer` (first variant): one shape element
and one centered label text element, mutually bound.  The shape is pushed with
an empty `boundElements` list which is then mutated to hold the text
reference; the element record here carries that final state. -/
def renderNode (now ctr : Nat) (node : PositionedNode) : List Element × Nat :=
  let style := node.style
  let id1 := generateId now ctr
  let shapeId := "node_" ++ id1.1
  let id2 := generateId now id1.2
  let textId := "text_" ++ id2.1
  let shapeType :=
    if style.shape = "rectangle" then "rectangle"
    else if style.shape = "ellipse" then "ellipse"
    else if style.shape = "diamond" then "diamond"
    else "rectangle"
  let shapeElement : Element :=
    { id := shapeId, type := shapeType,
      x := node.x, y := node.y, width := node.width, height := node.height,
      backgroundColor := style.fillColor, strokeColor := style.strokeColor,
      strokeStyle := "solid", opacity := 100,
      boundElements := some [{ type := "text", id := textId }] }
  let textWidth := min ((node.label.length : ℚ) * 9) (node.width - 20)
  let textHeight : ℚ := 20
  let textElement : Element :=
    { id := textId, type := "text",
      x := node.x + (node.width - textWidth) / 2,
      y := node.y + (node.height - textHeight) / 2,
      width := textWidth, height := textHeight,
      backgroundColor := "transparent", strokeColor := "#000000",
      strokeStyle := "solid", opacity := 100,
      text := some node.label, containerId := some shapeId,
      boundElements := none }
  ([shapeElement, textElement], id2.2)

/-- The arrow element built by `renderConnection` (first variant): its
bindings store the connection's `from`/`to` ids. -/
def connectionArrowElement (now ctr : Nat) (connection : PositionedConnection) : Element :=
  let connectionStyle := (CONNECTION_STYLES connection.type).getD
    { strokeColor := "#7b1fa2", strokeStyle := "solid", arrowType := "arrow" }
  let id1 := generateId now ctr
  let arrowId := "conn_" ++ id1.1
  let fp := connection.fromPoint
  let tp := connection.toPoint
  { id := arrowId, type := "arrow",
    x := min fp.1 tp.1, y := min fp.2 tp.2,
    width := |tp.1 - fp.1|, height := |tp.2 - fp.2|,
    backgroundColor := "transparent", strokeColor := connectionStyle.strokeColor,
    strokeStyle := connectionStyle.strokeStyle, opacity := 100,
    boundElements := some [],
    points := some [(0, 0), (tp.1 - min fp.1 tp.1, tp.2 - min fp.2 tp.2)],
    startArrowhead := none,
    endArrowhead := if connectionStyle.arrowType = "arrow" then some "arrow" else none,
    startBinding := some { elementId := connection.«from», focus := 0, gap := 0 },
    endBinding := some { elementId := connection.«to», focus := 0, gap := 0 } }

/-- The freestanding label element built by `renderConnection` for a truthy
connection label; `ctr` is the counter value after the arrow id was drawn.
`off dx dy` stands for the perpendicular offset pair computed with
`Math.atan2`/`sin`/`cos`. -/
def connectionLabelElement (off : ℚ → ℚ → ℚ × ℚ) (now ctr : Nat)
    (connection : PositionedConnection) (lbl : String) : Element :=
  let id2 := generateId now ctr
  let labelId := "label_" ++ id2.1
  let fp := connection.fromPoint
  let tp := connection.toPoint
  let dx := tp.1 - fp.1
  let dy := tp.2 - fp.2
  let offs := off dx dy
  let midX := (fp.1 + tp.1) / 2
  let midY := (fp.2 + tp.2) / 2
  let labelX := midX + offs.1
  let labelY := midY + offs.2
  let estimatedWidth := min ((lbl.length : ℚ) * 7) 150
  let estimatedHeight : ℚ := 16
  { id := labelId, type := "text",
    x := labelX - estimatedWidth / 2, y := labelY - estimatedHeight / 2,
    width := estimatedWidth, height := estimatedHeight,
    backgroundColor := "#ffffff", strokeColor := "#000000",
    strokeStyle := "solid", opacity := 100,
    text := some lbl, containerId := none, boundElements := none }

/-- `renderConnection` of `ExcalidrawRenderer` (first variant): one arrow
element whose bindings store the connection's `from`/`to` ids, plus a
freestanding label text when the connection label is truthy (present and
nonempty). -/
def renderConnection (off : ℚ → ℚ → ℚ × ℚ) (now ctr : Nat) (connection : PositionedConnection) :
    List Element × Nat :=
  let arrowElement := connectionArrowElement now ctr connection
  match connection.label with
  | some lbl =>
    if lbl = "" then ([arrowElement], (generateId now ctr).2)
    else
      ([arrowElement, connectionLabelElement off now (generateId now ctr).2 connection lbl],
        (generateId now (generateId now ctr).2).2)
  | none => ([arrowElement], (generateId now ctr).2)

/-- `renderGroup` of `ExcalidrawRenderer` (first variant): a dashed boundary
rectangle with an empty `boundElements` list and a freestanding label text
with no container reference. -/
def renderGroup (now ctr : Nat) (group : PositionedGroup) : List Element × Nat :=
  let id1 := generateId now ctr
  let groupId := "group_" ++ id1.1
  let groupElement : Element :=
    { id := groupId, type := "rectangle",
      x := group.x, y := group.y, width := group.width, height := group.height,
      backgroundColor := "transparent", strokeColor := "#cccccc",
      strokeStyle := "dashed", opacity := 50,
      boundElements := some [] }
  let id2 := generateId now id1.2
  let labelId := "group_label_" ++ id2.1
  let labelElement : Element :=
    { id := labelId, type := "text",
      x := group.x + 10, y := group.y - 25, width := 100, height := 20,
      backgroundColor := "transparent", strokeColor := "#666666",
      strokeStyle := "solid", opacity := 100,
      text := some group.label, containerId := none, boundElements := none }
  ([groupElement, labelElement], id2.2)

/-- Rendering a list of items while threading the id counter, concatenating
the produced elements (the `forEach`/`push` pattern of `render`). -/
def renderList {α : Type} (f : Nat → Nat → α → List Element × Nat) (now : Nat) :
    List α → Nat → List Element × Nat
  | [], ctr => ([], ctr)
  | a :: as, ctr =>
    let r := f now ctr a
    let rest := renderList f now as r.2
    (r.1 ++ rest.1, rest.2)

/-- `render` of `ExcalidrawRenderer` (first variant): groups first, then
nodes, then connections, wrapped in the document envelope.  The renderer is
constructed fresh by the generator, so the counter starts at 0. -/
def render (off : ℚ → ℚ → ℚ × ℚ) (now : Nat) (layout : Layout) : Document :=
  let rg := renderList renderGroup now layout.groups 0
  let rn := renderList renderNode now layout.nodes rg.2
  let rc := renderList (renderConnection off) now layout.connections rn.2
  { type := "excalidraw", version := 2, source := "draw-arch-dsl-renderer",
    elements := rg.1 ++ rn.1 ++ rc.1 }

/-- The layout-then-render pipeline of `generateDiagram` in
`lib/semantic/generator.js` (steps 2 and 3, after schema validation), with the
collected diagnostics alongside the Document. -/
def pipeline (off : ℚ → ℚ → ℚ × ℚ) (now : Nat) (architecture : Architecture) :
    Option (Document × List String) :=
  (generateLayout architecture).map (fun r => (render off now r.1, r.2))

/-- Membership in the closed rectangle of a positioned node. -/
def inClosedRect (r : PositionedNode) (p : ℚ × ℚ) : Prop :=
  r.x ≤ p.1 ∧ p.1 ≤ r.x + r.width ∧ r.y ≤ p.2 ∧ p.2 ≤ r.y + r.height

/-- Membership in the open interior of the rectangle of a positioned node. -/
def inOpenRect (r : PositionedNode) (p : ℚ × ℚ) : Prop :=
  r.x < p.1 ∧ p.1 < r.x + r.width ∧ r.y < p.2 ∧ p.2 < r.y + r.height

/-- Fixed elements used to instantiate witnesses: a trivial offset function
standing for the label-placement trigonometry. -/
def offZero : ℚ → ℚ → ℚ × ℚ := fun _ _ => (0, 0)

/-- C5: the connection router anchors on the left/right edges of the two
rectangles exactly when the horizontal component of the center-to-center
displacement strictly dominates (the tie `|dx| = |dy|` falling to the
top/bottom branch), picking the edges that face the other node, and both
anchor points lie on the closed boundary of their rectangle: inside the
closed rectangle but not in its open interior. -/
theorem connection_anchor_points_spec (a b : PositionedNode)
    (haw : 0 ≤ a.width) (hah : 0 ≤ a.height) (hbw : 0 ≤ b.width) (hbh : 0 ≤ b.height) :
    (|b.x + b.width / 2 - (a.x + a.width / 2)| > |b.y + b.height / 2 - (a.y + a.height / 2)| →
      (b.x + b.width / 2 - (a.x + a.width / 2) > 0 →
        (calculateOptimalConnectionPoints a b).fromPoint = (a.x + a.width, a.y + a.height / 2) ∧
        (calculateOptimalConnectionPoints a b).toPoint = (b.x, b.y + b.height / 2)) ∧
      (¬ b.x + b.width / 2 - (a.x + a.width / 2) > 0 →
        (calculateOptimalConnectionPoints a b).fromPoint = (a.x, a.y + a.height / 2) ∧
        (calculateOptimalConnectionPoints a b).toPoint = (b.x + b.width, b.y + b.height / 2))) ∧
    (¬ (|b.x + b.width / 2 - (a.x + a.width / 2)| > |b.y + b.height / 2 - (a.y + a.height / 2)|) →
      (b.y + b.height / 2 - (a.y + a.height / 2) > 0 →
        (calculateOptimalConnectionPoints a b).fromPoint = (a.x + a.width / 2, a.y + a.height) ∧
        (calculateOptimalConnectionPoints a b).toPoint = (b.x + b.width / 2, b.y) ) ∧
      (¬ b.y + b.height / 2 - (a.y + a.height / 2) > 0 →
        (calculateOptimalConnectionPoints a b).fromPoint = (a.x + a.width / 2, a.y) ∧
        (calculateOptimalConnectionPoints a b).toPoint = (b.x + b.width / 2, b.y + b.height))) ∧
    inClosedRect a (calculateOptimalConnectionPoints a b).fromPoint ∧
    ¬ inOpenRect a (calculateOptimalConnectionPoints a b).fromPoint ∧
    inClosedRect b (calculateOptimalConnectionPoints a b).toPoint ∧
    ¬ inOpenRect b (calculateOptimalConnectionPoints a b).toPoint := by
  simp only [calculateOptimalConnectionPoints]
  split_ifs with h1 h2 h3 <;>
    refine ⟨fun hd => ⟨fun hs => ?_, fun hs => ?_⟩, fun hd => ⟨fun hs => ?_, fun hs => ?_⟩,
      ?_, ?_, ?_, ?_⟩ <;>
    simp_all [inClosedRect, inOpenRect] <;>
    linarith

/-- Concrete rectangle used by the router witness. -/
def rectA : PositionedNode :=
  { id := "a", type := "service", label := "A", x := 0, y := 0,
    width := 100, height := 50, style := nodeStyleOf "service" }

/-- Second concrete rectangle used by the router witness. -/
def rectB : PositionedNode :=
  { id := "b", type := "service", label := "B", x := 300, y := 0,
    width := 100, height := 50, style := nodeStyleOf "service" }

/-- Witness for `connection_anchor_points_spec` at two concrete rectangles. -/
theorem connection_anchor_points_spec_witness :
    (0 : ℚ) ≤ rectA.width ∧
    inClosedRect rectA (calculateOptimalConnectionPoints rectA rectB).fromPoint :=
  ⟨by norm_num [rectA],
    (connection_anchor_points_spec rectA rectB
      (by norm_num [rectA]) (by norm_num [rectA]) (by norm_num [rectB])
      (by norm_num [rectB])).2.2.1⟩

lemma placeLayerAux_get? (direction : String) (sp : LayoutSpacing) (layerLen layerIndex : Nat)
    (layer : List ArchNode) :
    ∀ (ni j : Nat),
      (placeLayerAux direction sp layerLen layerIndex ni layer).get? j =
        (layer.get? j).map (placeLayerNode direction sp layerLen layerIndex (ni + j)) := by
  induction layer with
  | nil => intro ni j; simp [placeLayerAux]
  | cons n rest ih =>
    intro ni j
    cases j with
    | zero => simp [placeLayerAux]
    | succ j =>
      have harg : ni + 1 + j = ni + (j + 1) := by omega
      have hstep : (placeLayerAux direction sp layerLen layerIndex ni (n :: rest)).get? (j + 1) =
          (placeLayerAux direction sp layerLen layerIndex (ni + 1) rest).get? j := rfl
      rw [hstep, ih (ni + 1) j, harg]
      rfl

lemma positionLayersAux_mem (direction : String) (sp : LayoutSpacing) :
    ∀ (layers : List (List ArchNode)) (k li : Nat) (layer : List ArchNode),
      layers.get? li = some layer →
      ∀ pn ∈ positionLayer direction sp (k + li) layer,
        pn ∈ positionLayersAux direction sp k layers := by
  intro layers
  induction layers with
  | nil => intro k li layer h; simp at h
  | cons l rest ih =>
    intro k li layer h pn hpn
    cases li with
    | zero =>
      simp at h
      subst h
      simp only [positionLayersAux, List.mem_append]
      exact Or.inl (by simpa using hpn)
    | succ li =>
      simp only [positionLayersAux, List.mem_append]
      right
      have harg : k + 1 + li = k + (li + 1) := by omega
      exact ih (k + 1) li layer (by simpa using h) pn (by rw [harg]; exact hpn)

lemma map_sum_const {α : Type} (f : α → ℚ) (w : ℚ) :
    ∀ (l : List α), (∀ x ∈ l, f x = w) → (l.map f).sum = (l.length : ℚ) * w := by
  intro l
  induction l with
  | nil => intro _; simp
  | cons a l ih =>
    intro h
    have ha := h a (by simp)
    have hl := ih (fun x hx => h x (by simp [hx]))
    simp only [List.map_cons, List.sum_cons, List.length_cons, ha, hl]
    push_cast
    ring

/-- C10 amended: within a rank, each node is placed from a start coordinate
computed with that node's own style extent, as if every rank member shared it:
for vertical directions node `j` of a rank of length `L` sits at
`x = (canvasWidth - (L*w + (L-1)*spacing)) / 2 + j*(w + spacing)` where `w` is
that node's own style width, and symmetrically (with heights and `canvasHeight`)
for horizontal directions.  Consequently the rank as a whole is centered around
the canvas midline exactly when all rank members share the same width (resp.
height), in which case `L*w + (L-1)*spacing` equals the sum of the member
widths plus inter-node spacing. -/
theorem rank_cross_axis_centering (layers : List (List ArchNode)) (direction : String)
    (sp : LayoutSpacing) (li : Nat) (layer : List ArchNode)
    (hli : layers.get? li = some layer) :
    (∀ w : ℚ, isVerticalDir direction = true →
      (∀ n ∈ layer, (nodeStyleOf n.type).width = w) →
      (layer.map (fun m => (nodeStyleOf m.type).width)).sum = (layer.length : ℚ) * w ∧
      ∀ (j : Nat) (n : ArchNode), layer.get? j = some n →
        ∃ pn, (positionLayer direction sp li layer).get? j = some pn ∧
          pn ∈ positionNodesInLayers layers direction sp ∧
          pn.x = (canvasWidth - ((layer.length : ℚ) * w + ((layer.length : ℚ) - 1) * sp.node)) / 2
                 + (j : ℚ) * (w + sp.node)) ∧
    (∀ h : ℚ, isVerticalDir direction = false →
      (∀ n ∈ layer, (nodeStyleOf n.type).height = h) →
      (layer.map (fun m => (nodeStyleOf m.type).height)).sum = (layer.length : ℚ) * h ∧
      ∀ (j : Nat) (n : ArchNode), layer.get? j = some n →
        ∃ pn, (positionLayer direction sp li layer).get? j = some pn ∧
          pn ∈ positionNodesInLayers layers direction sp ∧
          pn.y = (canvasHeight - ((layer.length : ℚ) * h + ((layer.length : ℚ) - 1) * sp.node)) / 2
                 + (j : ℚ) * (h + sp.node)) := by
  have hmem : ∀ pn ∈ positionLayer direction sp li layer,
      pn ∈ positionNodesInLayers layers direction sp := by
    intro pn hpn
    have := positionLayersAux_mem direction sp layers 0 li layer hli pn
      (by simpa using hpn)
    simpa [positionNodesInLayers] using this
  constructor
  · intro w hv hw
    refine ⟨map_sum_const (fun m => (nodeStyleOf m.type).width) w layer hw, ?_⟩
    intro j n hj
    have hget : (positionLayer direction sp li layer).get? j =
        some (placeLayerNode direction sp layer.length li j n) := by
      have h0 := placeLayerAux_get? direction sp layer.length li layer 0 j
      unfold positionLayer
      rw [h0, hj]
      simp
    refine ⟨placeLayerNode direction sp layer.length li j n, hget, ?_, ?_⟩
    · exact hmem _ (List.get?_mem hget)
    · have hn : n ∈ layer := List.get?_mem hj
      have hwn := hw n hn
      simp [placeLayerNode, hv, hwn]
  · intro h hv hw
    refine ⟨map_sum_const (fun m => (nodeStyleOf m.type).height) h layer hw, ?_⟩
    intro j n hj
    have hget : (positionLayer direction sp li layer).get? j =
        some (placeLayerNode direction sp layer.length li j n) := by
      have h0 := placeLayerAux_get? direction sp layer.length li layer 0 j
      unfold positionLayer
      rw [h0, hj]
      simp
    refine ⟨placeLayerNode direction sp layer.length li j n, hget, ?_, ?_⟩
    · exact hmem _ (List.get?_mem hget)
    · have hn : n ∈ layer := List.get?_mem hj
      have hwn := hw n hn
      simp [placeLayerNode, hv, hwn]

/-- Witness for `rank_cross_axis_centering`: a rank of two actor nodes under
TB direction is centered: its first node starts at `(1200 - 320) / 2 = 440`. -/
theorem rank_cross_axis_centering_witness :
    ∃ pn, (positionLayer "TB" { node := 80, rank := 100 } 0
        [{ id := "u1", type := "actor", label := "U1" },
         { id := "u2", type := "actor", label := "U2" }]).get? 0 = some pn ∧
      pn ∈ positionNodesInLayers
        [[{ id := "u1", type := "actor", label := "U1" },
          { id := "u2", type := "actor", label := "U2" }]] "TB"
        { node := 80, rank := 100 } ∧
      pn.x = (canvasWidth - ((2 : ℚ) * 120 + ((2 : ℚ) - 1) * 80)) / 2 + (0 : ℚ) * (120 + 80) := by
  have := (rank_cross_axis_centering
      [[{ id := "u1", type := "actor", label := "U1" },
        { id := "u2", type := "actor", label := "U2" }]] "TB"
      { node := 80, rank := 100 } 0
      [{ id := "u1", type := "actor", label := "U1" },
       { id := "u2", type := "actor", label := "U2" }]
      (by rfl)).1 120 (by rfl) (by decide)
  have h0 := this.2 0 { id := "u1", type := "actor", label := "U1" } (by rfl)
  simpa using h0

/-- C10 counterexample: for a mixed-width rank (a 140-wide service node and a
120-wide actor node, TB direction, default spacing) the produced x
coordinates are `[420, 640]`, so the rank's left edge is 420, while the claim's
formula `(canvasWidth - total rank width) / 2` with the true total rank width
`140 + 120 + 80` gives 430: the rank is not centered around the canvas midline
using the sum of the members' own widths. -/
theorem rank_centering_counterexample :
    (positionNodesInLayers [[{ id := "s", type := "service", label := "S" },
        { id := "u", type := "actor", label := "U" }]] "TB"
        { node := 80, rank := 100 }).map (fun p => p.x) = [420, 640] ∧
    (canvasWidth - (140 + 120 + 80)) / 2 = (430 : ℚ) ∧ (420 : ℚ) ≠ 430 := by
  refine ⟨?_, by norm_num [canvasWidth], by norm_num⟩
  simp +decide only [positionNodesInLayers, positionLayersAux, positionLayer, placeLayerAux,
    placeLayerNode, isVerticalDir, nodeStyleOf, NODE_STYLES, canvasWidth, canvasPadding,
    Option.getD]
  norm_num

lemma sqrtSearch_spec (n : Nat) :
    ∀ (fuel c : Nat), (∀ b < c, b * b < n) → n ≤ (c + fuel) * (c + fuel) →
      n ≤ sqrtSearch n fuel c * sqrtSearch n fuel c ∧
      ∀ b < sqrtSearch n fuel c, b * b < n := by
  intro fuel
  induction fuel with
  | zero =>
    intro c hmin hle
    simp only [sqrtSearch]
    exact ⟨by simpa using hle, hmin⟩
  | succ fuel ih =>
    intro c hmin hle
    by_cases hc : n ≤ c * c
    · simp only [sqrtSearch, if_pos hc]
      exact ⟨hc, hmin⟩
    · have hmin1 : ∀ b < c + 1, b * b < n := by
        intro b hb
        rcases Nat.lt_succ_iff_lt_or_eq.mp hb with hb1 | hb1
        · exact hmin b hb1
        · subst hb1; omega
      have hle1 : n ≤ (c + 1 + fuel) * (c + 1 + fuel) := by
        have : c + 1 + fuel = c + (fuel + 1) := by omega
        rw [this]; exact hle
      simp only [sqrtSearch, if_neg hc]
      exact ih (c + 1) hmin1 hle1

lemma jsCeilSqrt_spec (n : Nat) :
    n ≤ jsCeilSqrt n * jsCeilSqrt n ∧ ∀ b < jsCeilSqrt n, b * b < n := by
  have hle : n ≤ (0 + (n + 1)) * (0 + (n + 1)) := by nlinarith
  simpa [jsCeilSqrt] using sqrtSearch_spec n (n + 1) 0 (by omega) hle

lemma gridPlaceAux_get? (sp : LayoutSpacing) (cols : Nat) (nodes : List ArchNode) :
    ∀ (i j : Nat),
      (gridPlaceAux sp cols i nodes).get? j = (nodes.get? j).map (gridCell sp cols (i + j)) := by
  induction nodes with
  | nil => intro i j; simp [gridPlaceAux]
  | cons n rest ih =>
    intro i j
    cases j with
    | zero => simp [gridPlaceAux]
    | succ j =>
      have harg : i + 1 + j = i + (j + 1) := by omega
      have hstep : (gridPlaceAux sp cols i (n :: rest)).get? (j + 1) =
          (gridPlaceAux sp cols (i + 1) rest).get? j := rfl
      rw [hstep, ih (i + 1) j, harg]
      rfl

/-- C8: under grid layout the number of columns is the least `c` with
`n ≤ c * c` (the ceiling of `√n`: `cols² ≥ n` and `(cols-1)² < n`), the
computed row count `⌈n / cols⌉` equals the last used row index plus one, and
the node at input index `i` is placed row-major at column `i % cols`, row
`i / cols`, spaced by its own style extent plus the configured spacing. -/
theorem grid_layout_spec (nodes : List ArchNode) (connections : List ArchConnection)
    (groups : List ArchGroup) (cfg : LayoutConfig) (hn : 1 ≤ nodes.length)
    (i : Nat) (n : ArchNode) (hi : nodes.get? i = some n) :
    nodes.length ≤ jsCeilSqrt nodes.length * jsCeilSqrt nodes.length ∧
    (jsCeilSqrt nodes.length - 1) * (jsCeilSqrt nodes.length - 1) < nodes.length ∧
    jsCeilDiv nodes.length (jsCeilSqrt nodes.length) =
      (nodes.length - 1) / jsCeilSqrt nodes.length + 1 ∧
    ∃ pn, (generateGridLayout nodes connections groups cfg).1.nodes.get? i = some pn ∧
      pn.id = n.id ∧
      pn.x = canvasPadding + ((i % jsCeilSqrt nodes.length : Nat) : ℚ) *
        ((nodeStyleOf n.type).width + (cfg.spacing.getD { node := 80, rank := 100 }).node) ∧
      pn.y = canvasPadding + ((i / jsCeilSqrt nodes.length : Nat) : ℚ) *
        ((nodeStyleOf n.type).height + (cfg.spacing.getD { node := 80, rank := 100 }).rank) := by
  obtain ⟨hsq, hmin⟩ := jsCeilSqrt_spec nodes.length
  have hcols : 0 < jsCeilSqrt nodes.length := by
    by_contra h
    have h0 : jsCeilSqrt nodes.length = 0 := by omega
    rw [h0] at hsq
    omega
  refine ⟨hsq, ?_, ?_, ?_⟩
  · exact hmin _ (by omega)
  · have harg : nodes.length + jsCeilSqrt nodes.length - 1 =
        (nodes.length - 1) + jsCeilSqrt nodes.length := by omega
    rw [jsCeilDiv, harg, Nat.add_div_right _ hcols]
  · have hget : (generateGridLayout nodes connections groups cfg).1.nodes.get? i =
        some (gridCell (cfg.spacing.getD { node := 80, rank := 100 })
          (jsCeilSqrt nodes.length) i n) := by
      have h0 := gridPlaceAux_get? (cfg.spacing.getD { node := 80, rank := 100 })
        (jsCeilSqrt nodes.length) nodes 0 i
      simp only [generateGridLayout]
      rw [h0, hi]
      simp
    exact ⟨_, hget, rfl, rfl, rfl⟩

/-- Ten concrete nodes used by the grid witness. -/
def gridNodesW : List ArchNode :=
  [{ id := "n0", type := "service", label := "N0" }, { id := "n1", type := "service", label := "N1" },
   { id := "n2", type := "service", label := "N2" }, { id := "n3", type := "service", label := "N3" },
   { id := "n4", type := "service", label := "N4" }, { id := "n5", type := "service", label := "N5" },
   { id := "n6", type := "service", label := "N6" }, { id := "n7", type := "service", label := "N7" },
   { id := "n8", type := "service", label := "N8" }, { id := "n9", type := "service", label := "N9" }]

/-- Witness for `grid_layout_spec`: ten nodes yield four columns and three
rows, node 9 landing in row 2, column 1. -/
theorem grid_layout_spec_witness :
    1 ≤ gridNodesW.length ∧ jsCeilSqrt gridNodesW.length = 4 ∧
    jsCeilDiv gridNodesW.length (jsCeilSqrt gridNodesW.length) = 3 ∧
    ∃ pn, (generateGridLayout gridNodesW [] [] emptyLayoutConfig).1.nodes.get? 9 = some pn ∧
      pn.id = "n9" ∧
      pn.x = canvasPadding + ((9 % jsCeilSqrt gridNodesW.length : Nat) : ℚ) *
        ((nodeStyleOf "service").width + (emptyLayoutConfig.spacing.getD { node := 80, rank := 100 }).node) ∧
      pn.y = canvasPadding + ((9 / jsCeilSqrt gridNodesW.length : Nat) : ℚ) *
        ((nodeStyleOf "service").height + (emptyLayoutConfig.spacing.getD { node := 80, rank := 100 }).rank) :=
  ⟨by decide, by decide, by decide,
    (grid_layout_spec gridNodesW [] [] emptyLayoutConfig (by decide) 9
      { id := "n9", type := "service", label := "N9" } (by rfl)).2.2.2⟩

lemma foldl_min_le (f : PositionedNode → ℚ) :
    ∀ (l : List PositionedNode) (a : ℚ),
      l.foldl (fun m x => min m (f x)) a ≤ a ∧
      ∀ x ∈ l, l.foldl (fun m x => min m (f x)) a ≤ f x := by
  intro l
  induction l with
  | nil => intro a; exact ⟨le_refl a, by simp⟩
  | cons y l ih =>
    intro a
    have h := ih (min a (f y))
    refine ⟨le_trans h.1 (min_le_left a (f y)), ?_⟩
    intro x hx
    rcases List.mem_cons.mp hx with hx1 | hx1
    · subst hx1
      exact le_trans h.1 (min_le_right a (f x))
    · exact h.2 x hx1

lemma foldl_min_attained (f : PositionedNode → ℚ) :
    ∀ (l : List PositionedNode) (a : ℚ),
      l.foldl (fun m x => min m (f x)) a = a ∨
      ∃ x ∈ l, l.foldl (fun m x => min m (f x)) a = f x := by
  intro l
  induction l with
  | nil => intro a; exact Or.inl rfl
  | cons y l ih =>
    intro a
    rcases ih (min a (f y)) with h | h
    · rcases min_choice a (f y) with hm | hm
      · exact Or.inl (by rw [List.foldl_cons, h, hm])
      · exact Or.inr ⟨y, by simp, by rw [List.foldl_cons, h, hm]⟩
    · obtain ⟨x, hx, hx1⟩ := h
      exact Or.inr ⟨x, by simp [hx], by rw [List.foldl_cons]; exact hx1⟩

lemma foldl_max_ge (f : PositionedNode → ℚ) :
    ∀ (l : List PositionedNode) (a : ℚ),
      a ≤ l.foldl (fun m x => max m (f x)) a ∧
      ∀ x ∈ l, f x ≤ l.foldl (fun m x => max m (f x)) a := by
  intro l
  induction l with
  | nil => intro a; exact ⟨le_refl a, by simp⟩
  | cons y l ih =>
    intro a
    have h := ih (max a (f y))
    refine ⟨le_trans (le_max_left a (f y)) h.1, ?_⟩
    intro x hx
    rcases List.mem_cons.mp hx with hx1 | hx1
    · subst hx1
      exact le_trans (le_max_right a (f x)) h.1
    · exact h.2 x hx1

lemma foldl_max_attained (f : PositionedNode → ℚ) :
    ∀ (l : List PositionedNode) (a : ℚ),
      l.foldl (fun m x => max m (f x)) a = a ∨
      ∃ x ∈ l, l.foldl (fun m x => max m (f x)) a = f x := by
  intro l
  induction l with
  | nil => intro a; exact Or.inl rfl
  | cons y l ih =>
    intro a
    rcases ih (max a (f y)) with h | h
    · rcases max_choice a (f y) with hm | hm
      · exact Or.inl (by rw [List.foldl_cons, h, hm])
      · exact Or.inr ⟨y, by simp, by rw [List.foldl_cons, h, hm]⟩
    · obtain ⟨x, hx, hx1⟩ := h
      exact Or.inr ⟨x, by simp [hx], by rw [List.foldl_cons]; exact hx1⟩

/-- C9: a group with at least one resolvable member is positioned at the
union bounding box of the resolved member rectangles expanded by exactly 20
units on every side (every member lies inside the padded rectangle with
slack 20, and each of the four inner edges is attained by some member);
a group with no resolvable member is dropped (`positionGroup` yields `none`,
so `positionGroups`, a `filterMap`, emits nothing for it). -/
theorem positionGroups_bbox_padding (groups : List ArchGroup)
    (pnodes : List PositionedNode) (g : ArchGroup) (hg : g ∈ groups) :
    (g.contains.filterMap (nodeMapFind pnodes) = [] → positionGroup pnodes g = none) ∧
    (∀ r rest, g.contains.filterMap (nodeMapFind pnodes) = r :: rest →
      ∃ pg, positionGroup pnodes g = some pg ∧ pg ∈ positionGroups groups pnodes ∧
        (∀ m ∈ r :: rest, pg.x + 20 ≤ m.x ∧ m.x + m.width ≤ pg.x + pg.width - 20 ∧
          pg.y + 20 ≤ m.y ∧ m.y + m.height ≤ pg.y + pg.height - 20) ∧
        (∃ m ∈ r :: rest, m.x = pg.x + 20) ∧
        (∃ m ∈ r :: rest, m.x + m.width = pg.x + pg.width - 20) ∧
        (∃ m ∈ r :: rest, m.y = pg.y + 20) ∧
        (∃ m ∈ r :: rest, m.y + m.height = pg.y + pg.height - 20)) := by
  constructor
  · intro hres
    simp [positionGroup, hres]
  · intro r rest hres
    have hpg : positionGroup pnodes g = some
        { id := g.id, label := g.label, contains := g.contains, type := g.type,
          x := (calculateBounds (r :: rest)).minX - 20,
          y := (calculateBounds (r :: rest)).minY - 20,
          width := (calculateBounds (r :: rest)).width + 2 * 20,
          height := (calculateBounds (r :: rest)).height + 2 * 20 } := by
      simp [positionGroup, hres]
    refine ⟨_, hpg, ?_, ?_, ?_, ?_, ?_, ?_⟩
    · exact List.mem_filterMap.mpr ⟨g, hg, hpg⟩
    · intro m hm
      have hminx := foldl_min_le (fun p => p.x) rest r.x
      have hminy := foldl_min_le (fun p => p.y) rest r.y
      have hmaxx := foldl_max_ge (fun p => p.x + p.width) rest (r.x + r.width)
      have hmaxy := foldl_max_ge (fun p => p.y + p.height) rest (r.y + r.height)
      rcases List.mem_cons.mp hm with hm1 | hm1
      · subst hm1
        simp only [calculateBounds]
        refine ⟨by linarith [hminx.1], by linarith [hmaxx.1], by linarith [hminy.1],
          by linarith [hmaxy.1]⟩
      · simp only [calculateBounds]
        refine ⟨by linarith [hminx.2 m hm1], by linarith [hmaxx.2 m hm1],
          by linarith [hminy.2 m hm1], by linarith [hmaxy.2 m hm1]⟩
    · rcases foldl_min_attained (fun p => p.x) rest r.x with h | h
      · exact ⟨r, by simp, by simp only [calculateBounds]; rw [h]; ring⟩
      · obtain ⟨x, hx, hx1⟩ := h
        exact ⟨x, by simp [hx], by simp only [calculateBounds]; rw [hx1]; ring⟩
    · rcases foldl_max_attained (fun p => p.x + p.width) rest (r.x + r.width) with h | h
      · exact ⟨r, by simp, by simp only [calculateBounds]; rw [h]; ring⟩
      · obtain ⟨x, hx, hx1⟩ := h
        exact ⟨x, by simp [hx], by simp only [calculateBounds]; rw [hx1]; ring⟩
    · rcases foldl_min_attained (fun p => p.y) rest r.y with h | h
      · exact ⟨r, by simp, by simp only [calculateBounds]; rw [h]; ring⟩
      · obtain ⟨x, hx, hx1⟩ := h
        exact ⟨x, by simp [hx], by simp only [calculateBounds]; rw [hx1]; ring⟩
    · rcases foldl_max_attained (fun p => p.y + p.height) rest (r.y + r.height) with h | h
      · exact ⟨r, by simp, by simp only [calculateBounds]; rw [h]; ring⟩
      · obtain ⟨x, hx, hx1⟩ := h
        exact ⟨x, by simp [hx], by simp only [calculateBounds]; rw [hx1]; ring⟩

/-- Concrete group used by the bounding-box witness. -/
def groupW : ArchGroup :=
  { id := "g", label := "G", contains := ["u"], type := "boundary" }

/-- Concrete member rectangle used by the bounding-box witness. -/
def memberW : PositionedNode :=
  { id := "u", type := "actor", label := "U", x := 540, y := 50,
    width := 120, height := 80, style := nodeStyleOf "actor" }

/-- Witness for `positionGroups_bbox_padding`: a singleton group around one
positioned node produces a rectangle padded by 20 on each side. -/
theorem positionGroups_bbox_padding_witness :
    groupW ∈ [groupW] ∧
    ∃ pg, positionGroup [memberW] groupW = some pg ∧
      pg ∈ positionGroups [groupW] [memberW] ∧
      (∀ m ∈ [memberW], pg.x + 20 ≤ m.x ∧ m.x + m.width ≤ pg.x + pg.width - 20 ∧
        pg.y + 20 ≤ m.y ∧ m.y + m.height ≤ pg.y + pg.height - 20) ∧
      (∃ m ∈ [memberW], m.x = pg.x + 20) ∧
      (∃ m ∈ [memberW], m.x + m.width = pg.x + pg.width - 20) ∧
      (∃ m ∈ [memberW], m.y = pg.y + 20) ∧
      (∃ m ∈ [memberW], m.y + m.height = pg.y + pg.height - 20) :=
  ⟨by simp,
    (positionGroups_bbox_padding [groupW] [memberW] groupW (by simp)).2 memberW []
      (by simp [groupW, nodeMapFind, memberW])⟩

lemma renderList_cons {α : Type} (f : Nat → Nat → α → List Element × Nat) (now : Nat)
    (a : α) (as : List α) (ctr : Nat) :
    (renderList f now (a :: as) ctr).1 =
      (f now ctr a).1 ++ (renderList f now as (f now ctr a).2).1 := rfl

lemma renderList_mem_strong {α : Type} (f : Nat → Nat → α → List Element × Nat) (now : Nat) :
    ∀ (l : List α) (ctr : Nat) (e : Element), e ∈ (renderList f now l ctr).1 →
      ∃ a ∈ l, ∃ c, e ∈ (f now c a).1 ∧
        ∀ e2 ∈ (f now c a).1, e2 ∈ (renderList f now l ctr).1 := by
  intro l
  induction l with
  | nil => intro ctr e he; simp [renderList] at he
  | cons a as ih =>
    intro ctr e he
    rw [renderList_cons] at he
    rcases List.mem_append.mp he with h | h
    · refine ⟨a, by simp, ctr, h, fun e2 he2 => ?_⟩
      rw [renderList_cons]
      exact List.mem_append.mpr (Or.inl he2)
    · obtain ⟨a2, ha2, c, hc, hincl⟩ := ih ((f now ctr a).2) e h
      refine ⟨a2, by simp [ha2], c, hc, fun e2 he2 => ?_⟩
      rw [renderList_cons]
      exact List.mem_append.mpr (Or.inr (hincl e2 he2))

lemma renderList_mem_item {α : Type} (f : Nat → Nat → α → List Element × Nat) (now : Nat) :
    ∀ (l : List α) (ctr : Nat) (a : α), a ∈ l →
      ∃ c, ∀ e ∈ (f now c a).1, e ∈ (renderList f now l ctr).1 := by
  intro l
  induction l with
  | nil => intro ctr a ha; simp at ha
  | cons a0 as ih =>
    intro ctr a ha
    rcases List.mem_cons.mp ha with h | h
    · subst h
      refine ⟨ctr, fun e he => ?_⟩
      rw [renderList_cons]
      exact List.mem_append.mpr (Or.inl he)
    · obtain ⟨c, hc⟩ := ih ((f now ctr a0).2) a h
      refine ⟨c, fun e he => ?_⟩
      rw [renderList_cons]
      exact List.mem_append.mpr (Or.inr (hc e he))

lemma renderGroup_elems (now ctr : Nat) (g : PositionedGroup) :
    ∀ e ∈ (renderGroup now ctr g).1,
      (e.type = "rectangle" ∨ e.type = "text") ∧ e.containerId = none ∧
      (e.type = "rectangle" → e.boundElements = some []) := by
  intro e he
  simp only [renderGroup, List.mem_cons, List.not_mem_nil, or_false] at he
  rcases he with rfl | rfl
  · exact ⟨Or.inl rfl, rfl, fun _ => rfl⟩
  · refine ⟨Or.inr rfl, rfl, fun h => ?_⟩
    simp at h

lemma renderNode_structure (now ctr : Nat) (node : PositionedNode) :
    ∃ s t, (renderNode now ctr node).1 = [s, t] ∧
      (s.type = "rectangle" ∨ s.type = "ellipse" ∨ s.type = "diamond") ∧
      s.containerId = none ∧
      t.type = "text" ∧ t.containerId = some s.id ∧ t.text = some node.label ∧
      s.boundElements = some [{ type := "text", id := t.id }] := by
  refine ⟨_, _, rfl, ?_, rfl, rfl, rfl, rfl, rfl⟩
  simp only [renderNode]
  split_ifs <;> simp

lemma connectionArrowElement_type (now ctr : Nat) (pc : PositionedConnection) :
    (connectionArrowElement now ctr pc).type = "arrow" := rfl

lemma connectionArrowElement_containerId (now ctr : Nat) (pc : PositionedConnection) :
    (connectionArrowElement now ctr pc).containerId = none := rfl

lemma connectionArrowElement_startBinding (now ctr : Nat) (pc : PositionedConnection) :
    (connectionArrowElement now ctr pc).startBinding =
      some { elementId := pc.«from», focus := 0, gap := 0 } := rfl

lemma connectionArrowElement_endBinding (now ctr : Nat) (pc : PositionedConnection) :
    (connectionArrowElement now ctr pc).endBinding =
      some { elementId := pc.«to», focus := 0, gap := 0 } := rfl

lemma renderConnection_structure (off : ℚ → ℚ → ℚ × ℚ) (now ctr : Nat)
    (pc : PositionedConnection) :
    ∃ rest, (renderConnection off now ctr pc).1 = connectionArrowElement now ctr pc :: rest ∧
      ∀ e ∈ rest, e.type = "text" ∧ e.containerId = none := by
  cases hl : pc.label with
  | none =>
    refine ⟨[], ?_, by simp⟩
    simp only [renderConnection, hl]
  | some lbl =>
    by_cases hlb : lbl = ""
    · refine ⟨[], ?_, by simp⟩
      simp only [renderConnection, hl, if_pos hlb]
    · refine ⟨[connectionLabelElement off now (generateId now ctr).2 pc lbl], ?_, ?_⟩
      · simp only [renderConnection, hl, if_neg hlb]
      · intro e he
        simp only [List.mem_cons, List.not_mem_nil, or_false] at he
        subst he
        exact ⟨rfl, rfl⟩

lemma render_elements_split (off : ℚ → ℚ → ℚ × ℚ) (now : Nat) (layout : Layout) :
    (render off now layout).elements =
      (renderList renderGroup now layout.groups 0).1 ++
      (renderList renderNode now layout.nodes
        (renderList renderGroup now layout.groups 0).2).1 ++
      (renderList (renderConnection off) now layout.connections
        (renderList renderNode now layout.nodes
          (renderList renderGroup now layout.groups 0).2).2).1 := rfl

lemma render_arrow_src (off : ℚ → ℚ → ℚ × ℚ) (now : Nat) (layout : Layout) :
    ∀ e ∈ (render off now layout).elements, e.type = "arrow" →
      ∃ pc ∈ layout.connections,
        e.startBinding = some { elementId := pc.«from», focus := 0, gap := 0 } ∧
        e.endBinding = some { elementId := pc.«to», focus := 0, gap := 0 } := by
  intro e he harrow
  rw [render_elements_split] at he
  rcases List.mem_append.mp he with he1 | hec
  rcases List.mem_append.mp he1 with heg | hen
  · obtain ⟨g, _, c, hc, _⟩ := renderList_mem_strong renderGroup now layout.groups 0 e heg
    rcases (renderGroup_elems now c g e hc).1 with h | h <;> rw [harrow] at h <;>
      exact absurd h (by decide)
  · obtain ⟨nd, _, c, hc, _⟩ := renderList_mem_strong renderNode now layout.nodes _ e hen
    obtain ⟨s, t, hst, hty, _, htt, _, _, _⟩ := renderNode_structure now c nd
    rw [hst] at hc
    simp only [List.mem_cons, List.not_mem_nil, or_false] at hc
    rcases hc with rfl | rfl
    · rcases hty with h | h | h <;> rw [harrow] at h <;> exact absurd h (by decide)
    · rw [harrow] at htt
      exact absurd htt (by decide)
  · obtain ⟨pc, hpc, c, hc, _⟩ :=
      renderList_mem_strong (renderConnection off) now layout.connections _ e hec
    obtain ⟨rest, har, hrest⟩ := renderConnection_structure off now c pc
    rw [har] at hc
    rcases List.mem_cons.mp hc with rfl | hc
    · exact ⟨pc, hpc, connectionArrowElement_startBinding now c pc,
        connectionArrowElement_endBinding now c pc⟩
    · have := (hrest e hc).1
      rw [harrow] at this
      exact absurd this (by decide)

lemma render_arrow_exists (off : ℚ → ℚ → ℚ × ℚ) (now : Nat) (layout : Layout)
    (pc : PositionedConnection) (hpc : pc ∈ layout.connections) :
    ∃ e ∈ (render off now layout).elements, e.type = "arrow" ∧
      e.startBinding = some { elementId := pc.«from», focus := 0, gap := 0 } ∧
      e.endBinding = some { elementId := pc.«to», focus := 0, gap := 0 } := by
  obtain ⟨c, hc⟩ := renderList_mem_item (renderConnection off) now layout.connections
    (renderList renderNode now layout.nodes
      (renderList renderGroup now layout.groups 0).2).2 pc hpc
  obtain ⟨rest, har, _⟩ := renderConnection_structure off now c pc
  refine ⟨connectionArrowElement now c pc, ?_, connectionArrowElement_type now c pc,
    connectionArrowElement_startBinding now c pc, connectionArrowElement_endBinding now c pc⟩
  rw [render_elements_split]
  refine List.mem_append.mpr (Or.inr (hc _ ?_))
  rw [har]
  simp

lemma calcPaths_warn (pnodes : List PositionedNode) :
    ∀ (conns : List ArchConnection) (c : ArchConnection), c ∈ conns →
      (nodeMapFind pnodes c.«from» = none ∨ nodeMapFind pnodes c.«to» = none) →
      missingNodeWarning c ∈ (calculateConnectionPaths conns pnodes).2 := by
  intro conns
  induction conns with
  | nil => intro c hc _; simp at hc
  | cons c0 rest ih =>
    intro c hc hmiss
    rcases List.mem_cons.mp hc with rfl | hc
    · cases hf : nodeMapFind pnodes c.«from» <;> cases ht : nodeMapFind pnodes c.«to» <;>
        simp only [calculateConnectionPaths, hf, ht] <;> simp_all
    · cases hf : nodeMapFind pnodes c0.«from» <;> cases ht : nodeMapFind pnodes c0.«to» <;>
        simp only [calculateConnectionPaths, hf, ht] <;>
        first
          | exact ih c hc hmiss
          | exact List.mem_cons_of_mem _ (ih c hc hmiss)

lemma calcPaths_src (pnodes : List PositionedNode) :
    ∀ (conns : List ArchConnection) (pc : PositionedConnection),
      pc ∈ (calculateConnectionPaths conns pnodes).1 →
      ∃ c ∈ conns, ∃ fn tn, nodeMapFind pnodes c.«from» = some fn ∧
        nodeMapFind pnodes c.«to» = some tn ∧ pc = positionedConnOf c fn tn := by
  intro conns
  induction conns with
  | nil => intro pc hpc; simp [calculateConnectionPaths] at hpc
  | cons c0 rest ih =>
    intro pc hpc
    cases hf : nodeMapFind pnodes c0.«from» <;> cases ht : nodeMapFind pnodes c0.«to» <;>
      simp only [calculateConnectionPaths, hf, ht] at hpc
    · obtain ⟨c, hcmem, r⟩ := ih pc hpc
      exact ⟨c, List.mem_cons_of_mem _ hcmem, r⟩
    · obtain ⟨c, hcmem, r⟩ := ih pc hpc
      exact ⟨c, List.mem_cons_of_mem _ hcmem, r⟩
    · obtain ⟨c, hcmem, r⟩ := ih pc hpc
      exact ⟨c, List.mem_cons_of_mem _ hcmem, r⟩
    · rcases List.mem_cons.mp hpc with rfl | hpc
      · exact ⟨c0, List.mem_cons_self c0 rest, _, _, hf, ht, rfl⟩
      · obtain ⟨c, hcmem, r⟩ := ih pc hpc
        exact ⟨c, List.mem_cons_of_mem _ hcmem, r⟩

lemma calcPaths_complete (pnodes : List PositionedNode) :
    ∀ (conns : List ArchConnection) (c : ArchConnection), c ∈ conns →
      ∀ fn tn, nodeMapFind pnodes c.«from» = some fn → nodeMapFind pnodes c.«to» = some tn →
      positionedConnOf c fn tn ∈ (calculateConnectionPaths conns pnodes).1 := by
  intro conns
  induction conns with
  | nil => intro c hc; simp at hc
  | cons c0 rest ih =>
    intro c hc fn tn hf ht
    rcases List.mem_cons.mp hc with rfl | hc
    · simp only [calculateConnectionPaths, hf, ht]
      exact List.mem_cons_self _ _
    · cases hf0 : nodeMapFind pnodes c0.«from» <;> cases ht0 : nodeMapFind pnodes c0.«to» <;>
        simp only [calculateConnectionPaths, hf0, ht0] <;>
        first
          | exact ih c hc fn tn hf ht
          | exact List.mem_cons_of_mem _ (ih c hc fn tn hf ht)

/-- C6: a connection whose `from` or `to` id does not resolve to a positioned
node is dropped before routing: the diagnostics list records the warning
naming the missing ids, the rendered Document contains no arrow whose bindings
are that connection's `from`/`to` pair, and every connection whose two
endpoints do resolve still yields its arrow in the Document. -/
theorem dangling_connection_dropped (off : ℚ → ℚ → ℚ × ℚ) (now : Nat)
    (conns : List ArchConnection) (pnodes : List PositionedNode)
    (pgroups : List PositionedGroup) (c : ArchConnection) (hc : c ∈ conns)
    (hmiss : nodeMapFind pnodes c.«from» = none ∨ nodeMapFind pnodes c.«to» = none) :
    missingNodeWarning c ∈ (calculateConnectionPaths conns pnodes).2 ∧
    (∀ e ∈ (render off now
        { nodes := pnodes, connections := (calculateConnectionPaths conns pnodes).1,
          groups := pgroups, bounds := calculateBounds pnodes }).elements,
      e.type = "arrow" →
        ¬ (e.startBinding = some { elementId := c.«from», focus := 0, gap := 0 } ∧
           e.endBinding = some { elementId := c.«to», focus := 0, gap := 0 })) ∧
    (∀ c2 ∈ conns, ∀ fn tn, nodeMapFind pnodes c2.«from» = some fn →
      nodeMapFind pnodes c2.«to» = some tn →
      ∃ e ∈ (render off now
          { nodes := pnodes, connections := (calculateConnectionPaths conns pnodes).1,
            groups := pgroups, bounds := calculateBounds pnodes }).elements,
        e.type = "arrow" ∧
        e.startBinding = some { elementId := c2.«from», focus := 0, gap := 0 } ∧
        e.endBinding = some { elementId := c2.«to», focus := 0, gap := 0 }) := by
  refine ⟨calcPaths_warn pnodes conns c hc hmiss, ?_, ?_⟩
  · intro e he harrow hbind
    obtain ⟨pc, hpc, hsb, heb⟩ := render_arrow_src off now _ e he harrow
    obtain ⟨c2, _, fn, tn, hf2, ht2, hpceq⟩ := calcPaths_src pnodes conns pc hpc
    rw [hbind.1] at hsb
    rw [hbind.2] at heb
    simp only [Option.some.injEq, PointBinding.mk.injEq] at hsb heb
    have hfrom : pc.«from» = c.«from» := hsb.1.symm
    have hto : pc.«to» = c.«to» := heb.1.symm
    have hpcf : pc.«from» = c2.«from» := by rw [hpceq]; rfl
    have hpct : pc.«to» = c2.«to» := by rw [hpceq]; rfl
    rcases hmiss with h | h
    · rw [← hfrom, hpcf, hf2] at h
      exact Option.noConfusion h
    · rw [← hto, hpct, ht2] at h
      exact Option.noConfusion h
  · intro c2 hc2 fn tn hf ht
    exact render_arrow_exists off now _ (positionedConnOf c2 fn tn)
      (calcPaths_complete pnodes conns c2 hc2 fn tn hf ht)

/-- Concrete dangling connection used by the C6 witness. -/
def dangC : ArchConnection :=
  { id := none, «from» := "u", «to» := "ghost", type := "http", label := none,
    bidirectional := false }

/-- Witness for `dangling_connection_dropped`: one positioned node `u`, one
connection `u -> ghost`. -/
theorem dangling_connection_dropped_witness :
    missingNodeWarning dangC ∈ (calculateConnectionPaths [dangC] [memberW]).2 ∧
    (∀ e ∈ (render offZero 0
        { nodes := [memberW], connections := (calculateConnectionPaths [dangC] [memberW]).1,
          groups := [], bounds := calculateBounds [memberW] }).elements,
      e.type = "arrow" →
        ¬ (e.startBinding = some { elementId := dangC.«from», focus := 0, gap := 0 } ∧
           e.endBinding = some { elementId := dangC.«to», focus := 0, gap := 0 })) ∧
    (∀ c2 ∈ [dangC], ∀ fn tn, nodeMapFind [memberW] c2.«from» = some fn →
      nodeMapFind [memberW] c2.«to» = some tn →
      ∃ e ∈ (render offZero 0
          { nodes := [memberW], connections := (calculateConnectionPaths [dangC] [memberW]).1,
            groups := [], bounds := calculateBounds [memberW] }).elements,
        e.type = "arrow" ∧
        e.startBinding = some { elementId := c2.«from», focus := 0, gap := 0 } ∧
        e.endBinding = some { elementId := c2.«to», focus := 0, gap := 0 }) :=
  dangling_connection_dropped offZero 0 [dangC] [memberW] [] dangC (by simp)
    (Or.inr (by decide))

/-- C1 amended: for every rendered connection, the emitted arrow's start and
end bindings store the connection's semantic `from`/`to` node ids verbatim
(`startBinding.elementId = connection.from`, `endBinding.elementId =
connection.to`); they are not translated to the freshly generated identifiers
of the shape elements in the Document. -/
theorem arrow_bindings_are_connection_node_ids (off : ℚ → ℚ → ℚ × ℚ) (now : Nat)
    (layout : Layout) (pc : PositionedConnection) (hpc : pc ∈ layout.connections) :
    ∃ e ∈ (render off now layout).elements, e.type = "arrow" ∧
      e.startBinding = some { elementId := pc.«from», focus := 0, gap := 0 } ∧
      e.endBinding = some { elementId := pc.«to», focus := 0, gap := 0 } :=
  render_arrow_exists off now layout pc hpc

/-- Concrete node `u` of the C1 architecture. -/
def uN : ArchNode := { id := "u", type := "actor", label := "User" }

/-- Concrete node `s` of the C1 architecture. -/
def sN : ArchNode := { id := "s", type := "service", label := "API" }

/-- Concrete connection `u -> s` of the C1 architecture. -/
def cC : ArchConnection :=
  { id := none, «from» := "u", «to» := "s", type := "http", label := none,
    bidirectional := false }

/-- The concrete two-node architecture used to refute C1. -/
def archC1 : Architecture :=
  { nodes := [uN, sN], connections := [cC], groups := [], layout := none }

/-- Positioned node `u` of the layout of `archC1`. -/
def puN : PositionedNode :=
  { id := "u", type := "actor", label := "User", x := 540, y := 50,
    width := 120, height := 80, style := nodeStyleOf "actor" }

/-- Positioned node `s` of the layout of `archC1`. -/
def psN : PositionedNode :=
  { id := "s", type := "service", label := "API", x := 530, y := 230,
    width := 140, height := 80, style := nodeStyleOf "service" }

/-- Positioned connection of the layout of `archC1`. -/
def pcC : PositionedConnection :=
  { id := "conn_u_s", «from» := "u", «to» := "s", type := "http", label := none,
    bidirectional := false, fromPoint := (600, 130), toPoint := (600, 230),
    path := [(600, 130), (600, 230)] }

/-- The layout the engine computes for `archC1`. -/
def layoutC1 : Layout :=
  { nodes := [puN, psN], connections := [pcC], groups := [],
    bounds := { minX := 530, minY := 50, maxX := 670, maxY := 310,
                width := 140, height := 260 } }

lemma archC1_assignLayers :
    assignLayers archC1.nodes (buildDependencyGraph archC1.nodes archC1.connections) =
      some [[uN], [sN]] := by decide

lemma archC1_positionNodes :
    positionNodesInLayers [[uN], [sN]] "TB" { node := 80, rank := 100 } = [puN, psN] := by
  simp +decide only [positionNodesInLayers, positionLayersAux, positionLayer, placeLayerAux,
    placeLayerNode, isVerticalDir, nodeStyleOf, NODE_STYLES, canvasWidth, canvasHeight,
    canvasPadding, uN, sN, puN, psN, Option.getD]
  norm_num

lemma archC1_connectionPaths :
    calculateConnectionPaths [cC] [puN, psN] = ([pcC], []) := by
  simp +decide only [calculateConnectionPaths, nodeMapFind, positionedConnOf,
    calculateOptimalConnectionPoints, jsStringOr, cC, puN, psN, pcC, List.foldl]
  norm_num
  decide

lemma archC1_bounds :
    calculateBounds [puN, psN] =
      { minX := 530, minY := 50, maxX := 670, maxY := 310, width := 140, height := 260 } := by
  simp +decide only [calculateBounds, puN, psN, List.foldl]
  norm_num

lemma generateLayout_archC1 : generateLayout archC1 = some (layoutC1, []) := by
  have hd : generateLayout archC1 =
      generateHierarchicalLayout archC1.nodes archC1.connections archC1.groups
        emptyLayoutConfig := by
    simp [generateLayout, archC1, emptyLayoutConfig, jsStringOr]
  rw [hd]
  simp only [generateHierarchicalLayout, emptyLayoutConfig, jsStringOr, Option.getD,
    archC1_assignLayers, Option.map]
  simp only [archC1] at *
  rw [archC1_positionNodes, archC1_connectionPaths, archC1_bounds]
  simp [positionGroups, layoutC1]

/-- C1 counterexample: for the concrete two-node architecture `archC1` the
pipeline produces the Document `render offZero 0 layoutC1`; that Document
contains an arrow whose bindings are the semantic node ids `u`/`s`, while no
shape element (rectangle, ellipse or diamond) of the Document has `u` or `s`
as its identifier — the bindings do not reference shape identifiers present in
the element list. -/
theorem arrow_bindings_counterexample :
    pipeline offZero 0 archC1 = some (render offZero 0 layoutC1, []) ∧
    ((render offZero 0 layoutC1).elements.any fun e =>
        decide (e.type = "arrow") &&
        decide (e.startBinding = some { elementId := "u", focus := 0, gap := 0 }) &&
        decide (e.endBinding = some { elementId := "s", focus := 0, gap := 0 })) = true ∧
    ((render offZero 0 layoutC1).elements.all fun e =>
        !(decide (e.type = "rectangle") || decide (e.type = "ellipse") ||
          decide (e.type = "diamond")) ||
        (decide (¬ e.id = "u") && decide (¬ e.id = "s"))) = true := by
  refine ⟨?_, by decide, by decide⟩
  simp [pipeline, generateLayout_archC1]

/-- Witness for `arrow_bindings_are_connection_node_ids` at the concrete
layout of `archC1`. -/
theorem arrow_bindings_are_connection_node_ids_witness :
    ∃ e ∈ (render offZero 0 layoutC1).elements, e.type = "arrow" ∧
      e.startBinding = some { elementId := pcC.«from», focus := 0, gap := 0 } ∧
      e.endBinding = some { elementId := pcC.«to», focus := 0, gap := 0 } :=
  arrow_bindings_are_connection_node_ids offZero 0 layoutC1 pcC (by simp [layoutC1])

/-- C2 amended: the 1:1 shape/label binding holds for the node shapes —
`renderNode` emits exactly one shape and one text, the text storing the
shape's id as its container reference and the shape recording exactly that
text among its bound elements, and every bound text in a rendered Document
references a shape of the same Document that records exactly it — but it does
not extend to the boundary rectangles emitted for groups: `renderGroup` emits
a rectangle with an empty bound-element list and a freestanding label with no
container reference. -/
theorem node_shape_text_mutual_binding (off : ℚ → ℚ → ℚ × ℚ) (now : Nat) (layout : Layout) :
    (∀ (ctr : Nat) (node : PositionedNode), ∃ s t, (renderNode now ctr node).1 = [s, t] ∧
      t.type = "text" ∧ t.containerId = some s.id ∧ t.text = some node.label ∧
      s.boundElements = some [{ type := "text", id := t.id }]) ∧
    (∀ (ctr : Nat) (g : PositionedGroup), ∃ r l, (renderGroup now ctr g).1 = [r, l] ∧
      r.type = "rectangle" ∧ r.boundElements = some [] ∧ l.containerId = none) ∧
    (∀ e ∈ (render off now layout).elements, ∀ cid, e.containerId = some cid →
      ∃ s ∈ (render off now layout).elements, s.id = cid ∧
        s.boundElements = some [{ type := "text", id := e.id }]) := by
  refine ⟨?_, ?_, ?_⟩
  · intro ctr node
    obtain ⟨s, t, hst, _, _, hty, hcid, htext, hbound⟩ := renderNode_structure now ctr node
    exact ⟨s, t, hst, hty, hcid, htext, hbound⟩
  · intro ctr g
    exact ⟨_, _, rfl, rfl, rfl, rfl⟩
  · intro e he cid hcid
    rw [render_elements_split] at he
    rcases List.mem_append.mp he with he1 | hec
    rcases List.mem_append.mp he1 with heg | hen
    · have := (renderGroup_elems now _ _ e
        (renderList_mem_strong renderGroup now layout.groups 0 e heg).choose_spec.2.choose_spec.1).2.1
      rw [hcid] at this
      exact Option.noConfusion this
    · obtain ⟨nd, _, c, hc, hincl⟩ := renderList_mem_strong renderNode now layout.nodes _ e hen
      obtain ⟨s, t, hst, _, hscid, _, htcid, _, hbound⟩ := renderNode_structure now c nd
      rw [hst] at hc hincl
      rcases List.mem_cons.mp hc with rfl | hc
      · rw [hcid] at hscid
        exact Option.noConfusion hscid
      · simp only [List.mem_cons, List.not_mem_nil, or_false] at hc
        subst hc
        rw [htcid] at hcid
        refine ⟨s, ?_, (Option.some.injEq _ _).mp hcid, hbound⟩
        rw [render_elements_split]
        exact List.mem_append.mpr (Or.inl (List.mem_append.mpr (Or.inr
          (hincl s (by simp)))))
    · obtain ⟨pc, _, c, hc, _⟩ :=
        renderList_mem_strong (renderConnection off) now layout.connections _ e hec
      obtain ⟨rest, har, hrest⟩ := renderConnection_structure off now c pc
      rw [har] at hc
      rcases List.mem_cons.mp hc with rfl | hc
      · have := connectionArrowElement_containerId now c pc
        rw [hcid] at this
        exact Option.noConfusion this
      · have := (hrest e hc).2
        rw [hcid] at this
        exact Option.noConfusion this

/-- A single-node layout used by the C2 witness. -/
def layoutW : Layout :=
  { nodes := [puN], connections := [], groups := [], bounds := calculateBounds [puN] }

/-- A placeholder element for safe list indexing in the C2 witness. -/
def dummyElem : Element :=
  { id := "", type := "", x := 0, y := 0, width := 0, height := 0,
    backgroundColor := "", strokeColor := "", strokeStyle := "", opacity := 0 }

/-- Witness for `node_shape_text_mutual_binding`: in the rendered single-node
document, the text element (index 1) is bound to a shape with id `node_0_1`
that records exactly that text. -/
theorem node_shape_text_mutual_binding_witness :
    ∃ s ∈ (render offZero 0 layoutW).elements, s.id = "node_0_1" ∧
      s.boundElements = some
        [{ type := "text",
           id := ((render offZero 0 layoutW).elements.getD 1 dummyElem).id }] :=
  (node_shape_text_mutual_binding offZero 0 layoutW).2.2
    ((render offZero 0 layoutW).elements.getD 1 dummyElem)
    (List.get?_mem (rfl :
      (render offZero 0 layoutW).elements.get? 1 =
        some ((render offZero 0 layoutW).elements.getD 1 dummyElem)))
    "node_0_1" rfl

/-- The concrete one-node, one-group architecture used to refute C2. -/
def archC2 : Architecture :=
  { nodes := [uN], connections := [],
    groups := [{ id := "g", label := "G", contains := ["u"], type := "boundary" }],
    layout := none }

/-- C2 counterexample: in the pipeline output for `archC2` the group boundary
rectangle (id `group_0_1`) is a shape element with an empty bound-element
list, and no text element of the Document stores it as container — the 1:1
shape/label binding does not hold for group boundary rectangles. -/
theorem group_rectangle_unlabeled_counterexample :
    ((pipeline offZero 0 archC2).map (fun r =>
        (r.1.elements.any fun e => decide (e.id = "group_0_1") &&
          decide (e.type = "rectangle") && decide (e.boundElements = some [])) &&
        (r.1.elements.all fun e => !(decide (e.containerId = some "group_0_1"))))) =
      some true := by
  decide

lemma lookupAdj_cons (a : String) (b : NodeAdj) (g : DepGraph) (k : String) :
    lookupAdj ((a, b) :: g) k = if a = k then some b else lookupAdj g k := by
  by_cases h : a = k <;> simp [lookupAdj, List.find?_cons, h]

lemma lookupAdj_append (g1 g2 : DepGraph) (j : String) :
    lookupAdj (g1 ++ g2) j =
      match lookupAdj g1 j with
      | some v => some v
      | none => lookupAdj g2 j := by
  induction g1 with
  | nil => simp [lookupAdj]
  | cons e g ih =>
    obtain ⟨a, b⟩ := e
    by_cases h : a = j <;> simp [lookupAdj_cons, h, ih]

lemma isSome_lookupAdj_setAdjMap (g : DepGraph) (k : String) (v : NodeAdj) (j : String) :
    (lookupAdj (g.map (fun e => if e.1 = k then (e.1, v) else e)) j).isSome =
      (lookupAdj g j).isSome := by
  induction g with
  | nil => rfl
  | cons e g ih =>
    obtain ⟨a, b⟩ := e
    simp only [List.map_cons]
    by_cases hak : a = k
    · subst hak
      by_cases haj : a = j
      · subst haj
        simp [lookupAdj_cons]
      · simp [lookupAdj_cons, haj, ih]
    · by_cases haj : a = j
      · subst haj
        simp [lookupAdj_cons, hak]
      · simp [lookupAdj_cons, hak, haj, ih]

lemma isSome_lookupAdj_updateAdj (g : DepGraph) (k : String) (f : NodeAdj → NodeAdj)
    (j : String) :
    (lookupAdj (updateAdj g k f) j).isSome = (lookupAdj g j).isSome := by
  induction g with
  | nil => rfl
  | cons e g ih =>
    obtain ⟨a, b⟩ := e
    simp only [updateAdj, List.map_cons] at ih ⊢
    by_cases hak : a = k
    · subst hak
      by_cases haj : a = j
      · subst haj
        simp [lookupAdj_cons]
      · simp [lookupAdj_cons, haj, ih]
    · by_cases haj : a = j
      · subst haj
        simp [lookupAdj_cons, hak]
      · simp [lookupAdj_cons, hak, haj, ih]

lemma isSome_lookupAdj_setAdj_self (g : DepGraph) (k : String) (v : NodeAdj) :
    (lookupAdj (setAdj g k v) k).isSome := by
  unfold setAdj
  by_cases hs : (lookupAdj g k).isSome
  · rw [if_pos hs, isSome_lookupAdj_setAdjMap]
    exact hs
  · rw [if_neg hs, lookupAdj_append]
    have : lookupAdj g k = none := by
      cases h : lookupAdj g k
      · rfl
      · rw [h] at hs; simp at hs
    rw [this]
    simp [lookupAdj_cons, lookupAdj]

lemma isSome_lookupAdj_setAdj_of (g : DepGraph) (k : String) (v : NodeAdj) (j : String)
    (h : (lookupAdj g j).isSome) : (lookupAdj (setAdj g k v) j).isSome := by
  unfold setAdj
  by_cases hs : (lookupAdj g k).isSome
  · rw [if_pos hs, isSome_lookupAdj_setAdjMap]
    exact h
  · rw [if_neg hs, lookupAdj_append]
    cases hj : lookupAdj g j
    · rw [hj] at h; simp at h
    · simp

lemma isSome_lookupAdj_addConnEdge (g : DepGraph) (c : ArchConnection) (j : String) :
    (lookupAdj (addConnEdge g c) j).isSome = (lookupAdj g j).isSome := by
  unfold addConnEdge
  split
  · rw [isSome_lookupAdj_updateAdj, isSome_lookupAdj_updateAdj]
  · rfl

lemma isSome_foldl_addConnEdge :
    ∀ (conns : List ArchConnection) (g : DepGraph) (j : String),
      (lookupAdj (conns.foldl addConnEdge g) j).isSome = (lookupAdj g j).isSome := by
  intro conns
  induction conns with
  | nil => intro g j; rfl
  | cons c rest ih =>
    intro g j
    rw [List.foldl_cons, ih, isSome_lookupAdj_addConnEdge]

lemma isSome_foldl_setAdj :
    ∀ (nodes : List ArchNode) (g : DepGraph) (j : String),
      ((lookupAdj g j).isSome ∨ ∃ n ∈ nodes, n.id = j) →
      (lookupAdj (nodes.foldl
        (fun g2 n => setAdj g2 n.id { incoming := [], outgoing := [] }) g) j).isSome := by
  intro nodes
  induction nodes with
  | nil =>
    intro g j h
    rcases h with h | h
    · exact h
    · simp at h
  | cons n rest ih =>
    intro g j h
    rw [List.foldl_cons]
    refine ih _ j ?_
    rcases h with h | h
    · exact Or.inl (isSome_lookupAdj_setAdj_of g n.id _ j h)
    · obtain ⟨m, hm, hmj⟩ := h
      rcases List.mem_cons.mp hm with rfl | hm
      · rw [← hmj]
        exact Or.inl (isSome_lookupAdj_setAdj_self g m.id _)
      · exact Or.inr ⟨m, hm, hmj⟩

lemma buildGraph_isSome (nodes : List ArchNode) (conns : List ArchConnection)
    (n : ArchNode) (hn : n ∈ nodes) :
    (lookupAdj (buildDependencyGraph nodes conns) n.id).isSome := by
  unfold buildDependencyGraph
  rw [isSome_foldl_addConnEdge]
  exact isSome_foldl_setAdj nodes [] n.id (Or.inr ⟨n, hn, rfl⟩)

lemma contains_iff_mem (l : List String) (a : String) : l.contains a = true ↔ a ∈ l := by
  simp [List.contains]

lemma rootFilter_isSome (g : DepGraph) :
    ∀ (nodes : List ArchNode), (∀ n ∈ nodes, (lookupAdj g n.id).isSome) →
      (rootFilter g nodes).isSome := by
  intro nodes
  induction nodes with
  | nil => intro _; simp [rootFilter]
  | cons n rest ih =>
    intro h
    have hn := h n (by simp)
    cases hl : lookupAdj g n.id
    · rw [hl] at hn; simp at hn
    · have hr := ih (fun m hm => h m (by simp [hm]))
      cases hrf : rootFilter g rest
      · rw [hrf] at hr; simp at hr
      · simp [rootFilter, hl, hrf]

lemma rootFilter_sub (g : DepGraph) :
    ∀ (nodes roots : List ArchNode), rootFilter g nodes = some roots →
      ∀ r ∈ roots, r ∈ nodes := by
  intro nodes
  induction nodes with
  | nil =>
    intro roots h
    simp [rootFilter] at h
    subst h
    simp
  | cons n rest ih =>
    intro roots h r hr
    simp only [rootFilter] at h
    cases hl : lookupAdj g n.id <;> rw [hl] at h
    · exact Option.noConfusion h
    · cases hrf : rootFilter g rest <;> rw [hrf] at h
      · exact Option.noConfusion h
      · simp only [Option.some.injEq] at h
        subst h
        split at hr
        · rcases List.mem_cons.mp hr with rfl | hr
          · simp
          · simp [ih _ hrf r hr]
        · simp [ih _ hrf r hr]

lemma rootFilter_sublist (g : DepGraph) :
    ∀ (nodes roots : List ArchNode), rootFilter g nodes = some roots →
      roots.Sublist nodes := by
  intro nodes
  induction nodes with
  | nil =>
    intro roots h
    simp [rootFilter] at h
    subst h
    exact List.Sublist.refl []
  | cons n rest ih =>
    intro roots h
    simp only [rootFilter] at h
    cases hl : lookupAdj g n.id <;> rw [hl] at h
    · exact Option.noConfusion h
    · cases hrf : rootFilter g rest <;> rw [hrf] at h
      · exact Option.noConfusion h
      · simp only [Option.some.injEq] at h
        subst h
        split
        · exact List.Sublist.cons₂ n (ih _ hrf)
        · exact List.Sublist.cons n (ih _ hrf)

lemma processNode_isSome (nodes : List ArchNode) (g : DepGraph) (st : BfsState)
    (n : ArchNode) (h : (lookupAdj g n.id).isSome) : (processNode nodes g st n).isSome := by
  unfold processNode
  split
  · simp
  · cases hl : lookupAdj g n.id
    · rw [hl] at h; simp at h
    · simp

lemma processNode_visited_mono (nodes : List ArchNode) (g : DepGraph) (st : BfsState)
    (n : ArchNode) (st2 : BfsState) (h : processNode nodes g st n = some st2) :
    ∀ i ∈ st.visited, i ∈ st2.visited := by
  unfold processNode at h
  split at h
  · simp only [Option.some.injEq] at h
    subst h
    exact fun i hi => hi
  · cases hl : lookupAdj g n.id <;> rw [hl] at h
    · exact Option.noConfusion h
    · simp only [Option.some.injEq] at h
      subst h
      intro i hi
      simp [hi]

lemma processNode_visited_self (nodes : List ArchNode) (g : DepGraph) (st : BfsState)
    (n : ArchNode) (st2 : BfsState) (h : processNode nodes g st n = some st2) :
    n.id ∈ st2.visited := by
  unfold processNode at h
  split at h
  · next hc =>
    simp only [Option.some.injEq] at h
    subst h
    exact (contains_iff_mem _ _).mp hc
  · cases hl : lookupAdj g n.id <;> rw [hl] at h
    · exact Option.noConfusion h
    · simp only [Option.some.injEq] at h
      subst h
      simp

lemma outFold_sub (nodes : List ArchNode) (visited1 : List String) :
    ∀ (out : List String) (acc : List ArchNode) (m : ArchNode),
      m ∈ out.foldl (fun acc2 depId =>
        match nodes.find? (fun n2 => n2.id = depId) with
        | some depNode => if visited1.contains depId then acc2 else acc2 ++ [depNode]
        | none => acc2) acc →
      m ∈ acc ∨ m ∈ nodes := by
  intro out
  induction out with
  | nil => intro acc m hm; exact Or.inl hm
  | cons depId rest ih =>
    intro acc m hm
    rw [List.foldl_cons] at hm
    cases hf : nodes.find? (fun n2 => n2.id = depId) <;> simp only [hf] at hm
    · exact ih acc m hm
    · by_cases hv : visited1.contains depId = true
      · rw [if_pos hv] at hm
        exact ih acc m hm
      · rw [if_neg hv] at hm
        rcases ih _ m hm with hm2 | hm2
        · rcases List.mem_append.mp hm2 with hm3 | hm3
          · exact Or.inl hm3
          · simp only [List.mem_singleton] at hm3
            subst hm3
            exact Or.inr (List.mem_of_find?_eq_some hf)
        · exact Or.inr hm2

lemma processNode_next_sub (nodes : List ArchNode) (g : DepGraph) (st : BfsState)
    (n : ArchNode) (st2 : BfsState) (h : processNode nodes g st n = some st2) :
    ∀ m ∈ st2.nextQueue, m ∈ st.nextQueue ∨ m ∈ nodes := by
  unfold processNode at h
  split at h
  · simp only [Option.some.injEq] at h
    subst h
    exact fun m hm => Or.inl hm
  · cases hl : lookupAdj g n.id <;> rw [hl] at h
    · exact Option.noConfusion h
    · simp only [Option.some.injEq] at h
      subst h
      intro m hm
      exact outFold_sub nodes _ _ _ m hm

lemma processNode_layer_append (nodes : List ArchNode) (g : DepGraph) (st : BfsState)
    (n : ArchNode) (st2 : BfsState) (h : processNode nodes g st n = some st2) :
    st2.layer = st.layer ∨ st2.layer = st.layer ++ [n] := by
  unfold processNode at h
  split at h
  · simp only [Option.some.injEq] at h
    subst h
    exact Or.inl rfl
  · cases hl : lookupAdj g n.id <;> rw [hl] at h
    · exact Option.noConfusion h
    · simp only [Option.some.injEq] at h
      subst h
      exact Or.inr rfl

lemma bfsFold_isSome (nodes : List ArchNode) (g : DepGraph) :
    ∀ (queue : List ArchNode) (st : BfsState),
      (∀ n ∈ queue, (lookupAdj g n.id).isSome) → (bfsFold nodes g queue st).isSome := by
  intro queue
  induction queue with
  | nil => intro st _; simp [bfsFold]
  | cons n q ih =>
    intro st h
    have hp := processNode_isSome nodes g st n (h n (by simp))
    cases hpn : processNode nodes g st n
    · rw [hpn] at hp; simp at hp
    · simp only [bfsFold, hpn]
      exact ih _ (fun m hm => h m (by simp [hm]))

lemma bfsFold_visited_mono (nodes : List ArchNode) (g : DepGraph) :
    ∀ (queue : List ArchNode) (st st2 : BfsState), bfsFold nodes g queue st = some st2 →
      ∀ i ∈ st.visited, i ∈ st2.visited := by
  intro queue
  induction queue with
  | nil =>
    intro st st2 h
    simp only [bfsFold, Option.some.injEq] at h
    subst h
    exact fun i hi => hi
  | cons n q ih =>
    intro st st2 h
    simp only [bfsFold] at h
    cases hpn : processNode nodes g st n <;> rw [hpn] at h
    · exact Option.noConfusion h
    · exact fun i hi => ih _ st2 h i (processNode_visited_mono nodes g st n _ hpn i hi)

lemma bfsFold_queue_visited (nodes : List ArchNode) (g : DepGraph) :
    ∀ (queue : List ArchNode) (st st2 : BfsState), bfsFold nodes g queue st = some st2 →
      ∀ n ∈ queue, n.id ∈ st2.visited := by
  intro queue
  induction queue with
  | nil => intro st st2 _ n hn; simp at hn
  | cons n q ih =>
    intro st st2 h m hm
    simp only [bfsFold] at h
    cases hpn : processNode nodes g st n <;> rw [hpn] at h
    · exact Option.noConfusion h
    · rcases List.mem_cons.mp hm with rfl | hm
      · exact bfsFold_visited_mono nodes g q _ st2 h m.id
          (processNode_visited_self nodes g st m _ hpn)
      · exact ih _ st2 h m hm

lemma bfsFold_next_sub (nodes : List ArchNode) (g : DepGraph) :
    ∀ (queue : List ArchNode) (st st2 : BfsState), bfsFold nodes g queue st = some st2 →
      ∀ m ∈ st2.nextQueue, m ∈ st.nextQueue ∨ m ∈ nodes := by
  intro queue
  induction queue with
  | nil =>
    intro st st2 h
    simp only [bfsFold, Option.some.injEq] at h
    subst h
    exact fun m hm => Or.inl hm
  | cons n q ih =>
    intro st st2 h m hm
    simp only [bfsFold] at h
    cases hpn : processNode nodes g st n <;> rw [hpn] at h
    · exact Option.noConfusion h
    · rcases ih _ st2 h m hm with hm2 | hm2
      · exact processNode_next_sub nodes g st n _ hpn m hm2
      · exact Or.inr hm2

lemma bfsFold_all_visited (nodes : List ArchNode) (g : DepGraph) :
    ∀ (queue : List ArchNode) (st : BfsState), (∀ n ∈ queue, n.id ∈ st.visited) →
      bfsFold nodes g queue st = some st := by
  intro queue
  induction queue with
  | nil => intro st _; rfl
  | cons n q ih =>
    intro st h
    have hc : st.visited.contains n.id = true :=
      (contains_iff_mem _ _).mpr (h n (by simp))
    have hpn : processNode nodes g st n = some st := by
      unfold processNode
      rw [hc]
      rfl
    simp only [bfsFold, hpn]
    exact ih st (fun m hm => h m (by simp [hm]))

lemma processNode_inv (nodes : List ArchNode) (g : DepGraph) (visited0 : List String)
    (hinj : ∀ a ∈ nodes, ∀ b ∈ nodes, a.id = b.id → a = b)
    (st : BfsState) (n : ArchNode) (hn : n ∈ nodes) (st2 : BfsState)
    (h : processNode nodes g st n = some st2)
    (hP : ∀ m ∈ nodes, m.id ∈ st.visited → m.id ∈ visited0 ∨ m ∈ st.layer) :
    ∀ m ∈ nodes, m.id ∈ st2.visited → m.id ∈ visited0 ∨ m ∈ st2.layer := by
  unfold processNode at h
  split at h
  · simp only [Option.some.injEq] at h
    subst h
    exact hP
  · cases hl : lookupAdj g n.id <;> rw [hl] at h
    · exact Option.noConfusion h
    · simp only [Option.some.injEq] at h
      subst h
      intro m hm hmv
      simp only [List.mem_append, List.mem_singleton] at hmv
      rcases hmv with hmv | hmv
      · rcases hP m hm hmv with h2 | h2
        · exact Or.inl h2
        · exact Or.inr (by simp [h2])
      · have : m = n := hinj m hm n hn hmv
        subst this
        exact Or.inr (by simp)

lemma bfsFold_layer_inv (nodes : List ArchNode) (g : DepGraph) (visited0 : List String)
    (hinj : ∀ a ∈ nodes, ∀ b ∈ nodes, a.id = b.id → a = b) :
    ∀ (queue : List ArchNode) (st st2 : BfsState), (∀ n ∈ queue, n ∈ nodes) →
      bfsFold nodes g queue st = some st2 →
      (∀ m ∈ nodes, m.id ∈ st.visited → m.id ∈ visited0 ∨ m ∈ st.layer) →
      ∀ m ∈ nodes, m.id ∈ st2.visited → m.id ∈ visited0 ∨ m ∈ st2.layer := by
  intro queue
  induction queue with
  | nil =>
    intro st st2 _ h hP
    simp only [bfsFold, Option.some.injEq] at h
    subst h
    exact hP
  | cons n q ih =>
    intro st st2 hq h hP
    simp only [bfsFold] at h
    cases hpn : processNode nodes g st n <;> rw [hpn] at h
    · exact Option.noConfusion h
    · exact ih _ st2 (fun m hm => hq m (by simp [hm])) h
        (processNode_inv nodes g visited0 hinj st n (hq n (by simp)) _ hpn hP)

lemma bfsFold_fresh (nodes : List ArchNode) (g : DepGraph) :
    ∀ (queue : List ArchNode) (st : BfsState),
      (queue.map (fun n => n.id)).Nodup → (∀ n ∈ queue, ¬ n.id ∈ st.visited) →
      (∀ n ∈ queue, (lookupAdj g n.id).isSome) →
      ∃ st2, bfsFold nodes g queue st = some st2 ∧ st2.layer = st.layer ++ queue := by
  intro queue
  induction queue with
  | nil => intro st _ _ _; exact ⟨st, rfl, by simp⟩
  | cons n q ih =>
    intro st hnd hnv hlk
    have hc : st.visited.contains n.id = false := by
      cases hcc : st.visited.contains n.id
      · rfl
      · exact absurd ((contains_iff_mem _ _).mp hcc) (hnv n (by simp))
    obtain ⟨adj, hadj⟩ := Option.isSome_iff_exists.mp (hlk n (by simp))
    have hpn : processNode nodes g st n = some
        { visited := st.visited ++ [n.id],
          layer := st.layer ++ [n],
          nextQueue := adj.outgoing.foldl (fun acc depId =>
            match nodes.find? (fun n2 => n2.id = depId) with
            | some depNode =>
              if (st.visited ++ [n.id]).contains depId then acc else acc ++ [depNode]
            | none => acc) st.nextQueue } := by
      unfold processNode
      rw [hc, hadj]
      rfl
    have hnd2 : (q.map (fun n2 => n2.id)).Nodup := by
      simp only [List.map_cons, List.nodup_cons] at hnd
      exact hnd.2
    have hni : n.id ∉ q.map (fun n2 => n2.id) := by
      simp only [List.map_cons, List.nodup_cons] at hnd
      exact hnd.1
    have hnv2 : ∀ m ∈ q, ¬ m.id ∈ st.visited ++ [n.id] := by
      intro m hm hmem
      simp only [List.mem_append, List.mem_singleton] at hmem
      rcases hmem with hmem | hmem
      · exact hnv m (by simp [hm]) hmem
      · exact hni (List.mem_map.mpr ⟨m, hm, hmem⟩)
    obtain ⟨st2, hst2, hlayer⟩ := ih
      { visited := st.visited ++ [n.id],
        layer := st.layer ++ [n],
        nextQueue := adj.outgoing.foldl (fun acc depId =>
          match nodes.find? (fun n2 => n2.id = depId) with
          | some depNode =>
            if (st.visited ++ [n.id]).contains depId then acc else acc ++ [depNode]
          | none => acc) st.nextQueue }
      hnd2 hnv2 (fun m hm => hlk m (by simp [hm]))
    refine ⟨st2, ?_, ?_⟩
    · simp only [bfsFold, hpn]
      exact hst2
    · rw [hlayer]
      simp

lemma bfsLoop_nil (nodes : List ArchNode) (g : DepGraph) (fuel : Nat)
    (visited : List String) (layers : List (List ArchNode)) :
    bfsLoop nodes g fuel [] visited layers = some (layers, visited) := by
  cases fuel <;> rfl

lemma bfsLoop_cons (nodes : List ArchNode) (g : DepGraph) (fuel : Nat) (c : ArchNode)
    (cs : List ArchNode) (visited : List String) (layers : List (List ArchNode)) :
    bfsLoop nodes g (fuel + 1) (c :: cs) visited layers =
      match bfsFold nodes g (c :: cs) { visited := visited, layer := [], nextQueue := [] } with
      | some st => bfsLoop nodes g fuel st.nextQueue st.visited (layers ++ [st.layer])
      | none => none := rfl

lemma filter_length_mono {α : Type} (p q : α → Bool) (hpq : ∀ x, q x = true → p x = true) :
    ∀ (l : List α), (l.filter q).length ≤ (l.filter p).length := by
  intro l
  induction l with
  | nil => simp
  | cons y l ih =>
    cases hq : q y
    · cases hp : p y <;> simp [List.filter_cons, hq, hp] <;> omega
    · have hp := hpq y hq
      simp [List.filter_cons, hq, hp]
      omega

lemma filter_length_strict {α : Type} (p q : α → Bool) (hpq : ∀ x, q x = true → p x = true) :
    ∀ (l : List α) (x0 : α), x0 ∈ l → p x0 = true → q x0 = false →
      (l.filter q).length < (l.filter p).length := by
  intro l
  induction l with
  | nil => intro x0 h; simp at h
  | cons y l ih =>
    intro x0 hx0 hp hq
    rcases List.mem_cons.mp hx0 with rfl | hx0
    · have := filter_length_mono p q hpq l
      simp [List.filter_cons, hp, hq]
      omega
    · cases hqy : q y
      · cases hpy : p y <;> simp [List.filter_cons, hqy, hpy] <;>
          have := ih x0 hx0 hp hq <;> omega
      · have hpy := hpq y hqy
        simp [List.filter_cons, hqy, hpy]
        have := ih x0 hx0 hp hq
        omega

lemma bfsLoop_isSome (nodes : List ArchNode) (g : DepGraph)
    (hlook : ∀ m ∈ nodes, (lookupAdj g m.id).isSome) :
    ∀ (fuel : Nat) (queue : List ArchNode) (visited : List String)
      (layers : List (List ArchNode)),
      (∀ m ∈ queue, m ∈ nodes) →
      (nodes.filter (fun n => !(visited.contains n.id))).length + 1 ≤ fuel →
      (bfsLoop nodes g fuel queue visited layers).isSome := by
  intro fuel
  induction fuel with
  | zero => intro queue visited layers _ hf; omega
  | succ fuel ih =>
    intro queue visited layers hq hf
    cases queue with
    | nil => simp [bfsLoop_nil]
    | cons c cs =>
      have hlq : ∀ n ∈ c :: cs, (lookupAdj g n.id).isSome := fun n hn => hlook n (hq n hn)
      cases hfold : bfsFold nodes g (c :: cs) { visited := visited, layer := [], nextQueue := [] } with
      | none =>
        have := bfsFold_isSome nodes g (c :: cs)
          { visited := visited, layer := [], nextQueue := [] } hlq
        rw [hfold] at this
        simp at this
      | some st =>
        rw [bfsLoop_cons]
        rw [hfold]
        by_cases hall : ∀ n ∈ c :: cs, n.id ∈ visited
        · have hsame := bfsFold_all_visited nodes g (c :: cs)
            { visited := visited, layer := [], nextQueue := [] } hall
          rw [hsame] at hfold
          simp only [Option.some.injEq] at hfold
          subst hfold
          simp [bfsLoop_nil]
        · push_neg at hall
          obtain ⟨n0, hn0, hn0v⟩ := hall
          have hmono : ∀ x : ArchNode, (!(st.visited.contains x.id)) = true →
              (!(visited.contains x.id)) = true := by
            intro x hx
            cases hvx : visited.contains x.id
            · rfl
            · have := bfsFold_visited_mono nodes g (c :: cs) _ st hfold x.id
                ((contains_iff_mem _ _).mp hvx)
              have := (contains_iff_mem _ _).mpr this
              rw [this] at hx
              simp at hx
          have hdec : (nodes.filter (fun n => !(st.visited.contains n.id))).length <
              (nodes.filter (fun n => !(visited.contains n.id))).length := by
            refine filter_length_strict _ _ hmono nodes n0 (hq n0 hn0) ?_ ?_
            · cases hvx : visited.contains n0.id
              · rfl
              · exact absurd ((contains_iff_mem _ _).mp hvx) hn0v
            · have := bfsFold_queue_visited nodes g (c :: cs) _ st hfold n0 hn0
              rw [(contains_iff_mem _ _).mpr this]
              rfl
          refine ih st.nextQueue st.visited (layers ++ [st.layer]) ?_ (by omega)
          intro m hm
          rcases bfsFold_next_sub nodes g (c :: cs) _ st hfold m hm with hm2 | hm2
          · simp at hm2
          · exact hm2

lemma bfsLoop_layers_prefix (nodes : List ArchNode) (g : DepGraph) :
    ∀ (fuel : Nat) (queue : List ArchNode) (visited : List String)
      (layers L : List (List ArchNode)) (vis : List String),
      bfsLoop nodes g fuel queue visited layers = some (L, vis) →
      ∃ sfx, L = layers ++ sfx := by
  intro fuel
  induction fuel with
  | zero =>
    intro queue visited layers L vis h
    cases queue with
    | nil =>
      rw [bfsLoop_nil] at h
      simp only [Option.some.injEq, Prod.mk.injEq] at h
      exact ⟨[], by simp [h.1]⟩
    | cons c cs => exact Option.noConfusion h
  | succ fuel ih =>
    intro queue visited layers L vis h
    cases queue with
    | nil =>
      rw [bfsLoop_nil] at h
      simp only [Option.some.injEq, Prod.mk.injEq] at h
      exact ⟨[], by simp [h.1]⟩
    | cons c cs =>
      rw [bfsLoop_cons] at h
      cases hfold : bfsFold nodes g (c :: cs)
          { visited := visited, layer := [], nextQueue := [] } with
      | none =>
        rw [hfold] at h
        exact Option.noConfusion h
      | some st =>
        rw [hfold] at h
        have h2 : bfsLoop nodes g fuel st.nextQueue st.visited
            (layers ++ [st.layer]) = some (L, vis) := h
        obtain ⟨sfx, hsfx⟩ := ih _ _ _ L vis h2
        exact ⟨[st.layer] ++ sfx, by simp [hsfx]⟩

lemma bfsLoop_complete (nodes : List ArchNode) (g : DepGraph)
    (hinj : ∀ a ∈ nodes, ∀ b ∈ nodes, a.id = b.id → a = b) :
    ∀ (fuel : Nat) (queue : List ArchNode) (visited : List String)
      (layers L : List (List ArchNode)) (vis : List String),
      (∀ m ∈ queue, m ∈ nodes) →
      (∀ m ∈ nodes, m.id ∈ visited → m ∈ layers.flatten) →
      bfsLoop nodes g fuel queue visited layers = some (L, vis) →
      ∀ m ∈ nodes, m.id ∈ vis → m ∈ L.flatten := by
  intro fuel
  induction fuel with
  | zero =>
    intro queue visited layers L vis hq hP h
    cases queue with
    | nil =>
      rw [bfsLoop_nil] at h
      simp only [Option.some.injEq, Prod.mk.injEq] at h
      rw [← h.1, ← h.2] at *
      intro m hm hmv
      exact hP m hm hmv
    | cons c cs => exact Option.noConfusion h
  | succ fuel ih =>
    intro queue visited layers L vis hq hP h
    cases queue with
    | nil =>
      rw [bfsLoop_nil] at h
      simp only [Option.some.injEq, Prod.mk.injEq] at h
      rw [← h.1, ← h.2] at *
      intro m hm hmv
      exact hP m hm hmv
    | cons c cs =>
      rw [bfsLoop_cons] at h
      cases hfold : bfsFold nodes g (c :: cs)
          { visited := visited, layer := [], nextQueue := [] } with
      | none =>
        rw [hfold] at h
        exact Option.noConfusion h
      | some st =>
        rw [hfold] at h
        have h2 : bfsLoop nodes g fuel st.nextQueue st.visited
            (layers ++ [st.layer]) = some (L, vis) := h
        refine ih st.nextQueue st.visited (layers ++ [st.layer]) L vis ?_ ?_ h2
        · intro m hm
          rcases bfsFold_next_sub nodes g (c :: cs) _ st hfold m hm with hm2 | hm2
          · simp at hm2
          · exact hm2
        · intro m hm hmv
          have := bfsFold_layer_inv nodes g visited hinj (c :: cs) _ st hq hfold
            (fun m2 hm2 hv2 => Or.inl hv2) m hm hmv
          rw [List.flatten_append]
          rcases this with h2 | h2
          · exact List.mem_append.mpr (Or.inl (hP m hm h2))
          · exact List.mem_append.mpr (Or.inr (by simp [h2]))

lemma assignLayers_isSome (nodes : List ArchNode) (g : DepGraph)
    (hlook : ∀ n ∈ nodes, (lookupAdj g n.id).isSome) :
    (assignLayers nodes g).isSome := by
  unfold assignLayers
  cases hr : rootFilter g nodes with
  | none =>
    have := rootFilter_isSome g nodes hlook
    rw [hr] at this
    simp at this
  | some roots =>
    by_cases he : roots.isEmpty
    · simp [he]
    · simp only [he, Bool.false_eq_true, if_false]
      cases hb : bfsLoop nodes g (nodes.length + 2) roots [] [] with
      | none =>
        have := bfsLoop_isSome nodes g hlook (nodes.length + 2) roots [] []
          (fun m hm => rootFilter_sub g nodes roots hr m hm) ?_
        · rw [hb] at this
          simp at this
        · have := List.length_filter_le (fun n => !(([] : List String).contains n.id)) nodes
          omega
      | some r =>
        obtain ⟨L, vis⟩ := r
        simp

/-- C3: the layout-then-render pipeline is total: for every architecture value
of the schema's shape (any node/connection/group lists, any layout
configuration) `generateLayout` produces a positioned layout — in particular
the breadth-first layer assignment never exhausts its frontier-loop and every
dependency-graph access is defined — and `pipeline` therefore always returns a
complete Document together with its diagnostics; dangling references, unknown
strategies, cyclic graphs and empty groups are all absorbed internally. -/
lemma generateHierarchicalLayout_isSome (nodes : List ArchNode)
    (conns : List ArchConnection) (groups : List ArchGroup) (cfg : LayoutConfig) :
    (generateHierarchicalLayout nodes conns groups cfg).isSome := by
  unfold generateHierarchicalLayout
  cases ha : assignLayers nodes (buildDependencyGraph nodes conns) with
  | none =>
    have := assignLayers_isSome nodes (buildDependencyGraph nodes conns)
      (fun n hn => buildGraph_isSome nodes conns n hn)
    rw [ha] at this
    simp at this
  | some layers => simp [ha]

lemma generateLayout_isSome (architecture : Architecture) :
    (generateLayout architecture).isSome := by
  simp only [generateLayout]
  split
  · exact generateHierarchicalLayout_isSome _ _ _ _
  · split
    · simp
    · split
      · simp
      · exact generateHierarchicalLayout_isSome _ _ _ _

lemma pipeline_isSome (off : ℚ → ℚ → ℚ × ℚ) (now : Nat) (architecture : Architecture) :
    (pipeline off now architecture).isSome := by
  have hgen := generateLayout_isSome architecture
  unfold pipeline
  cases hg : generateLayout architecture with
  | none => rw [hg] at hgen; simp at hgen
  | some r => simp

theorem pipeline_total (off : ℚ → ℚ → ℚ × ℚ) (now : Nat) (architecture : Architecture) :
    (pipeline off now architecture).isSome :=
  pipeline_isSome off now architecture

lemma contains_iff_mem2 {α : Type} [DecidableEq α] (l : List α) (a : α) :
    l.contains a = true ↔ a ∈ l := by
  simp [List.contains]

lemma typeLayersAux_append (nodes : List ArchNode) :
    ∀ (ts1 ts2 : List String),
      typeLayersAux nodes (ts1 ++ ts2) =
        typeLayersAux nodes ts1 ++ typeLayersAux nodes ts2 := by
  intro ts1
  induction ts1 with
  | nil => intro ts2; rfl
  | cons t ts ih =>
    intro ts2
    simp only [List.cons_append, typeLayersAux]
    split
    · exact ih ts2
    · simp only [List.append_eq]
      rw [ih ts2]
      rfl

lemma typeLayersAux_types (nodes : List ArchNode) :
    ∀ (ts : List String) (l : List ArchNode), l ∈ typeLayersAux nodes ts →
      ∀ m ∈ l, m.type ∈ ts := by
  intro ts
  induction ts with
  | nil => intro l hl; simp [typeLayersAux] at hl
  | cons t ts ih =>
    intro l hl m hm
    simp only [typeLayersAux] at hl
    split at hl
    · exact List.mem_cons_of_mem t (ih l hl m hm)
    · rcases List.mem_cons.mp hl with rfl | hl
      · have := (List.mem_filter.mp hm).2
        simp only [decide_eq_true_eq] at this
        simp [this]
      · exact List.mem_cons_of_mem t (ih l hl m hm)

lemma findIdx_append_not (p : List ArchNode → Bool) :
    ∀ (xs ys : List (List ArchNode)), (∀ x ∈ xs, p x = false) →
      (xs ++ ys).findIdx p = xs.length + ys.findIdx p := by
  intro xs
  induction xs with
  | nil => intro ys _; simp
  | cons x xs ih =>
    intro ys h
    have hx := h x (by simp)
    simp only [List.cons_append, List.findIdx_cons, hx, cond_false]
    rw [ih ys (fun y hy => h y (by simp [hy]))]
    simp only [List.length_cons]
    omega

lemma groupNodesByType_service_lt_database (nodes : List ArchNode)
    (s : ArchNode) (hs : s ∈ nodes) (hst : s.type = "service")
    (d : ArchNode) (hd : d ∈ nodes) (hdt : d.type = "database") :
    (groupNodesByType nodes).findIdx (fun l => l.contains s) <
    (groupNodesByType nodes).findIdx (fun l => l.contains d) := by
  have hsmem : s ∈ nodes.filter (fun n => n.type = "service") :=
    List.mem_filter.mpr ⟨hs, by simp [hst]⟩
  have hdmem : d ∈ nodes.filter (fun n => n.type = "database") :=
    List.mem_filter.mpr ⟨hd, by simp [hdt]⟩
  have hsvne : (nodes.filter (fun n => n.type = "service")).isEmpty = false := by
    cases he : (nodes.filter (fun n => n.type = "service")).isEmpty
    · rfl
    · rw [List.isEmpty_iff] at he
      rw [he] at hsmem
      simp at hsmem
  have hdbne : (nodes.filter (fun n => n.type = "database")).isEmpty = false := by
    cases he : (nodes.filter (fun n => n.type = "database")).isEmpty
    · rfl
    · rw [List.isEmpty_iff] at he
      rw [he] at hdmem
      simp at hdmem
  have htl : typeLayersAux nodes typeOrder =
      typeLayersAux nodes ["actor", "ui", "gateway"] ++
        nodes.filter (fun n => n.type = "service") ::
          (typeLayersAux nodes ["queue", "cache"] ++
            nodes.filter (fun n => n.type = "database") ::
              typeLayersAux nodes ["external"]) := by
    have ht : typeOrder = ["actor", "ui", "gateway"] ++
        "service" :: (["queue", "cache"] ++ "database" :: ["external"]) := rfl
    rw [ht, typeLayersAux_append nodes]
    have h1 : typeLayersAux nodes
        ("service" :: (["queue", "cache"] ++ "database" :: ["external"])) =
        nodes.filter (fun n => n.type = "service") ::
          typeLayersAux nodes (["queue", "cache"] ++ "database" :: ["external"]) := by
      simp only [typeLayersAux, hsvne]
      rfl
    rw [h1, typeLayersAux_append nodes]
    have h2 : typeLayersAux nodes ("database" :: ["external"]) =
        nodes.filter (fun n => n.type = "database") ::
          typeLayersAux nodes ["external"] := by
      simp only [typeLayersAux, hdbne]
      rfl
    rw [h2]
  have hsplit : ∃ tail, groupNodesByType nodes =
      typeLayersAux nodes ["actor", "ui", "gateway"] ++
        nodes.filter (fun n => n.type = "service") ::
          (typeLayersAux nodes ["queue", "cache"] ++
            nodes.filter (fun n => n.type = "database") :: tail) := by
    simp only [groupNodesByType]
    rw [htl]
    split
    · exact ⟨typeLayersAux nodes ["external"], rfl⟩
    · refine ⟨typeLayersAux nodes ["external"] ++
        [nodes.filter (fun n => !(typeOrder.contains n.type))], ?_⟩
      simp
  obtain ⟨tail, heq⟩ := hsplit
  rw [heq]
  have hnotm : ∀ (l : List ArchNode) (m : ArchNode) (ts : List String),
      l ∈ typeLayersAux nodes ts → m.type ∉ ts → (l.contains m) = false := by
    intro l m ts hl hnm
    cases hc : l.contains m
    · rfl
    · exact absurd (typeLayersAux_types nodes ts l hl m ((contains_iff_mem2 l m).mp hc)) hnm
  have hA_nos : ∀ l ∈ typeLayersAux nodes ["actor", "ui", "gateway"],
      (fun l2 => l2.contains s) l = false := by
    intro l hl
    exact hnotm l s _ hl (by rw [hst]; decide)
  have hA_nod : ∀ l ∈ typeLayersAux nodes ["actor", "ui", "gateway"],
      (fun l2 => l2.contains d) l = false := by
    intro l hl
    exact hnotm l d _ hl (by rw [hdt]; decide)
  have hB_nod : ∀ l ∈ typeLayersAux nodes ["queue", "cache"],
      (fun l2 => l2.contains d) l = false := by
    intro l hl
    exact hnotm l d _ hl (by rw [hdt]; decide)
  rw [findIdx_append_not _ _ _ hA_nos, findIdx_append_not _ _ _ hA_nod]
  have hscont : (nodes.filter (fun n => n.type = "service")).contains s = true :=
    (contains_iff_mem2 _ _).mpr hsmem
  have hdcont : (nodes.filter (fun n => n.type = "database")).contains d = true :=
    (contains_iff_mem2 _ _).mpr hdmem
  have hsvcd : (nodes.filter (fun n => n.type = "service")).contains d = false := by
    cases hc : (nodes.filter (fun n => n.type = "service")).contains d
    · rfl
    · have := (List.mem_filter.mp ((contains_iff_mem2 _ _).mp hc)).2
      simp only [decide_eq_true_eq] at this
      rw [hdt] at this
      exact absurd this (by decide)
  simp only [List.findIdx_cons, hscont, hsvcd, cond_true, cond_false]
  rw [findIdx_append_not _ _ _ hB_nod]
  simp only [List.findIdx_cons, hdcont, cond_true]
  omega

/-- C4: layer assignment.  With zero zero-in-degree nodes the breadth-first
ranking is abandoned for the canonical type grouping, under which a service
node's rank strictly precedes a database node's rank regardless of input
order; with a nonempty root set, the roots form rank 0 and every node appears
in some rank (never-visited nodes going to the final overflow rank).  Node
ids are assumed unique, as the data model requires. -/
theorem assignLayers_spec (nodes : List ArchNode) (conns : List ArchConnection)
    (hnd : (nodes.map (fun n => n.id)).Nodup) :
    (rootFilter (buildDependencyGraph nodes conns) nodes = some [] →
      assignLayers nodes (buildDependencyGraph nodes conns) =
        some (groupNodesByType nodes)) ∧
    (∀ s ∈ nodes, ∀ d ∈ nodes, s.type = "service" → d.type = "database" →
      (groupNodesByType nodes).findIdx (fun l => l.contains s) <
      (groupNodesByType nodes).findIdx (fun l => l.contains d)) ∧
    (∀ roots, rootFilter (buildDependencyGraph nodes conns) nodes = some roots →
      roots ≠ [] →
      ∃ L, assignLayers nodes (buildDependencyGraph nodes conns) = some L ∧
        L.head? = some roots ∧ ∀ n ∈ nodes, n ∈ L.flatten) := by
  refine ⟨?_, ?_, ?_⟩
  · intro h
    unfold assignLayers
    rw [h]
    rfl
  · intro s hs d hd hst hdt
    exact groupNodesByType_service_lt_database nodes s hs hst d hd hdt
  · intro roots hr hne
    have hlook : ∀ n ∈ nodes,
        (lookupAdj (buildDependencyGraph nodes conns) n.id).isSome :=
      fun n hn => buildGraph_isSome nodes conns n hn
    have hrootsub : ∀ r ∈ roots, r ∈ nodes :=
      rootFilter_sub (buildDependencyGraph nodes conns) nodes roots hr
    have hinj : ∀ a ∈ nodes, ∀ b ∈ nodes, a.id = b.id → a = b :=
      fun a ha b hb hab => List.inj_on_of_nodup_map hnd ha hb hab
    have hndroots : (roots.map (fun n => n.id)).Nodup :=
      List.Nodup.sublist
        (List.Sublist.map (fun n => n.id)
          (rootFilter_sublist (buildDependencyGraph nodes conns) nodes roots hr)) hnd
    obtain ⟨r0, rs, rfl⟩ : ∃ a l, roots = a :: l := by
      cases roots with
      | nil => exact absurd rfl hne
      | cons a l => exact ⟨a, l, rfl⟩
    obtain ⟨stf, hstf, hlay⟩ := bfsFold_fresh nodes (buildDependencyGraph nodes conns)
      (r0 :: rs) { visited := [], layer := [], nextQueue := [] } hndroots
      (by intro n _; simp)
      (fun n hn => hlook n (hrootsub n hn))
    simp only [List.nil_append] at hlay
    unfold assignLayers
    rw [hr]
    have hney : (r0 :: rs).isEmpty = false := rfl
    simp only [hney, Bool.false_eq_true, if_false]
    cases hb : bfsLoop nodes (buildDependencyGraph nodes conns)
        (nodes.length + 2) (r0 :: rs) [] [] with
    | none =>
      have := bfsLoop_isSome nodes (buildDependencyGraph nodes conns) hlook
        (nodes.length + 2) (r0 :: rs) [] [] (fun m hm => hrootsub m hm) ?_
      · rw [hb] at this
        simp at this
      · have := List.length_filter_le (fun n => !(([] : List String).contains n.id)) nodes
        omega
    | some r =>
      obtain ⟨Lb, vis⟩ := r
      have hfuel : nodes.length + 2 = (nodes.length + 1) + 1 := rfl
      rw [hfuel, bfsLoop_cons, hstf] at hb
      have h2 : bfsLoop nodes (buildDependencyGraph nodes conns) (nodes.length + 1)
          stf.nextQueue stf.visited ([] ++ [stf.layer]) = some (Lb, vis) := hb
      simp only [List.nil_append] at h2
      have hqsub : ∀ m ∈ stf.nextQueue, m ∈ nodes := by
        intro m hm
        rcases bfsFold_next_sub nodes (buildDependencyGraph nodes conns) (r0 :: rs)
            _ stf hstf m hm with hm2 | hm2
        · simp at hm2
        · exact hm2
      obtain ⟨sfx, hsfx⟩ := bfsLoop_layers_prefix nodes (buildDependencyGraph nodes conns)
        (nodes.length + 1) stf.nextQueue stf.visited [stf.layer] Lb vis h2
      rw [hlay] at hsfx
      have hinv0 : ∀ m ∈ nodes, m.id ∈ stf.visited → m ∈ ([stf.layer]).flatten := by
        intro m hm hmv
        have := bfsFold_layer_inv nodes (buildDependencyGraph nodes conns) []
          hinj (r0 :: rs) _ stf (fun n hn => hrootsub n hn) hstf ?_ m hm hmv
        · rcases this with h3 | h3
          · simp at h3
          · simp [h3]
        · intro m2 _ hv2
          simp at hv2
      have hcomp := bfsLoop_complete nodes (buildDependencyGraph nodes conns) hinj
        (nodes.length + 1) stf.nextQueue stf.visited [stf.layer] Lb vis hqsub hinv0 h2
      refine ⟨_, rfl, ?_, ?_⟩
      · rw [hsfx]
        split <;> rfl
      · intro n hn
        by_cases hv : n.id ∈ vis
        · have hmem := hcomp n hn hv
          split
          · exact hmem
          · rw [List.flatten_append]
            exact List.mem_append.mpr (Or.inl hmem)
        · have hrem : n ∈ nodes.filter (fun m => !(vis.contains m.id)) := by
            refine List.mem_filter.mpr ⟨hn, ?_⟩
            cases hc : vis.contains n.id
            · rfl
            · exact absurd ((contains_iff_mem _ _).mp hc) hv
          split
          · next hremp =>
            rw [List.isEmpty_iff] at hremp
            rw [hremp] at hrem
            simp at hrem
          · rw [List.flatten_append]
            refine List.mem_append.mpr (Or.inr ?_)
            simp only [List.flatten_cons, List.flatten_nil, List.append_nil]
            exact hrem

/-- Nodes of the cyclic witness architecture. -/
def cycS : ArchNode := { id := "cs", type := "service", label := "S" }

/-- Database node of the cyclic witness architecture. -/
def cycD : ArchNode := { id := "cd", type := "database", label := "D" }

/-- Connections of the cyclic witness architecture (a two-cycle, so no node
has zero in-degree). -/
def cycConns : List ArchConnection :=
  [{ id := none, «from» := "cs", «to» := "cd", type := "query", label := none,
     bidirectional := false },
   { id := none, «from» := "cd", «to» := "cs", type := "query", label := none,
     bidirectional := false }]

/-- Witness for `assignLayers_spec`: on a fully cyclic two-node graph the
ranking falls back to the canonical type grouping, where the service node is
ranked strictly before the database node. -/
theorem assignLayers_spec_witness :
    assignLayers [cycS, cycD] (buildDependencyGraph [cycS, cycD] cycConns) =
      some (groupNodesByType [cycS, cycD]) ∧
    (groupNodesByType [cycS, cycD]).findIdx (fun l => l.contains cycS) <
    (groupNodesByType [cycS, cycD]).findIdx (fun l => l.contains cycD) :=
  ⟨(assignLayers_spec [cycS, cycD] cycConns (by decide)).1 (by decide),
   (assignLayers_spec [cycS, cycD] cycConns (by decide)).2.1 cycS (by simp)
     cycD (by simp) rfl rfl⟩

/-- The single node of the unknown-strategy example architecture. -/
def forceNode : ArchNode := { id := "f", type := "service", label := "F" }

/-- The layout configuration requesting the unimplemented "force" strategy. -/
def forceCfg : LayoutConfig :=
  { type := some "force", direction := none, spacing := none }

/-- An architecture whose `layout.type` is "force", outside the closed enum. -/
def archForce : Architecture :=
  { nodes := [forceNode], connections := [], groups := [], layout := some forceCfg }

/-- C7 (amended): an unknown `layout.type` (outside hierarchical / grid /
layered, and nonempty, so the `|| 'hierarchical'` default does not fire) takes
the `default:` branch of the dispatch, so `generateLayout` returns exactly what
the hierarchical generator returns on the same inputs — a deterministic
fallback — and the pipeline still produces a Document.  The substitution is
silent: the result, diagnostics included, is identical to the hierarchical
run, so no diagnostic records it. -/
theorem unknown_layout_silent_hierarchical_fallback
    (arch : Architecture) (cfg : LayoutConfig)
    (hcfg : arch.layout = some cfg)
    (hne : jsStringOr cfg.type "hierarchical" ≠ "hierarchical")
    (hng : jsStringOr cfg.type "hierarchical" ≠ "grid")
    (hnl : jsStringOr cfg.type "hierarchical" ≠ "layered") :
    generateLayout arch =
      generateHierarchicalLayout arch.nodes arch.connections arch.groups cfg ∧
    ∀ off now, (pipeline off now arch).isSome := by
  constructor
  · simp only [generateLayout, hcfg, Option.getD_some]
    rw [if_neg hne, if_neg hng, if_neg hnl]
  · intro off now
    exact pipeline_isSome off now arch

/-- Witness for `unknown_layout_silent_hierarchical_fallback` at the concrete
"force" architecture. -/
theorem unknown_layout_silent_hierarchical_fallback_witness :
    generateLayout archForce =
      generateHierarchicalLayout archForce.nodes archForce.connections
        archForce.groups forceCfg ∧
    ∀ off now, (pipeline off now archForce).isSome :=
  unknown_layout_silent_hierarchical_fallback archForce forceCfg rfl
    (by decide) (by decide) (by decide)

/-- C7 counterexample: on the "force" architecture the produced diagnostics
list is empty — no diagnostic records the substitution of the hierarchical
strategy for the unknown one. -/
theorem unknown_layout_no_diagnostic_counterexample :
    (generateLayout archForce).map (fun r => r.2) = some [] := by
  decide

end DrawArch
